import Mathlib

/-!
Verification of the `web-queue` advanced queue engine
(`src/core/advanced-queue.ts`, `src/core/advanced-topic-queue.ts`,
`src/utils/helpers.ts`, `src/utils/types.ts`).

Modelling conventions:
* Every operation of the engine is synchronous; `Date.now()` is passed in as
  an explicit `now : Nat` argument at each call that reads the clock.
* JavaScript numbers that are used as priorities or delays are modelled as
  `Int`; timestamps as `Nat`.  JavaScript truthiness of an optional number
  (`0`, `undefined` falsy) and of an optional string (`""`, `undefined`
  falsy) is modelled explicitly (`intTruthy`, `strTruthy`).
* The three collections hold references to message objects, and `enqueue`
  guarantees at most one object per id, so two entries bearing the same id
  are aliases of one object.  Mutation through a reference obtained from
  `findMessageById` is therefore modelled as rewriting every list entry
  bearing that id (`setMessage`), and the in-place promotion performed by
  `checkDelayedMessages` likewise rewrites every entry whose id was promoted.
* `Array.prototype.sort` is a stable sort; for a fixed comparator the stable
  sorted permutation of a list is unique, so it is modelled by the stable
  `List.insertionSort` with the order induced by `sortByPriorityAndTime`.
* `generateUniqueId` is random; its result is passed in as an explicit
  `genId : String` argument, and reachability assumes freshness of generated
  ids (the engine's stated contract for the identity generator).
* `deepClone` (JSON round trip) is the identity under value semantics, so the
  snapshot accessors return the lists themselves.
-/

/-- `MessageStatus` from `src/utils/types.ts`. -/
inductive MessageStatus where
  | pending
  | processing
  | completed
  | failed
  | delayed
  | dead_letter
deriving DecidableEq, Repr

/-- `Message<T>` from `src/utils/types.ts`. -/
structure Message (T : Type) where
  id : String
  data : T
  status : MessageStatus
  priority : Int
  createdAt : Nat
  updatedAt : Nat
  delayUntil : Option Nat
  processingStartedAt : Option Nat
  processingAttempts : Nat
  failureReason : Option String
deriving DecidableEq, Repr

/-- `QueueOptions` from `src/utils/types.ts`. -/
structure QueueOptions where
  maxRetries : Nat
  retryDelay : Nat
  persistenceEnabled : Bool
  persistenceDriver : String
  persistenceInterval : Nat
  deadLetterEnabled : Bool
  autoCheckDelayed : Bool
  delayedCheckInterval : Nat
deriving DecidableEq, Repr

/-- `DEFAULT_QUEUE_OPTIONS` from `src/utils/types.ts`. -/
def DEFAULT_QUEUE_OPTIONS : QueueOptions :=
  { maxRetries := 3
    retryDelay := 1000
    persistenceEnabled := false
    persistenceDriver := "memory"
    persistenceInterval := 5000
    deadLetterEnabled := true
    autoCheckDelayed := false
    delayedCheckInterval := 100 }

/-- `sortByPriorityAndTime` from `src/utils/helpers.ts`: the comparator value
`b.priority - a.priority` when priorities differ, else
`a.createdAt - b.createdAt`. -/
def sortByPriorityAndTime {T : Type} (a b : Message T) : Int :=
  if a.priority ≠ b.priority then b.priority - a.priority
  else (a.createdAt : Int) - (b.createdAt : Int)

/-- The order induced by the comparator: `a` may be placed no later than `b`
exactly when the comparator is non-positive. -/
def MsgLe {T : Type} (a b : Message T) : Prop :=
  sortByPriorityAndTime a b ≤ 0

instance {T : Type} : DecidableRel (@MsgLe T) :=
  fun a b => Int.decLe (sortByPriorityAndTime a b) 0

theorem msgLe_total {T : Type} (a b : Message T) : MsgLe a b ∨ MsgLe b a := by
  simp only [MsgLe, sortByPriorityAndTime, ne_eq]
  split_ifs <;> omega

theorem msgLe_trans {T : Type} (a b c : Message T) :
    MsgLe a b → MsgLe b c → MsgLe a c := by
  simp only [MsgLe, sortByPriorityAndTime, ne_eq]
  by_cases hab : a.priority = b.priority <;>
    by_cases hbc : b.priority = c.priority <;>
      by_cases hac : a.priority = c.priority <;>
        simp [hab, hbc, hac] <;> omega

instance {T : Type} : IsTotal (Message T) (@MsgLe T) := ⟨msgLe_total⟩

instance {T : Type} : IsTrans (Message T) (@MsgLe T) :=
  ⟨fun a b c => msgLe_trans a b c⟩

theorem msgLe_refl {T : Type} (a : Message T) : MsgLe a a :=
  (msgLe_total a a).elim id id

/-- `MsgLe` only looks at `priority` and `createdAt`. -/
theorem msgLe_congr {T : Type} {a a' b b' : Message T}
    (ha1 : a'.priority = a.priority) (ha2 : a'.createdAt = a.createdAt)
    (hb1 : b'.priority = b.priority) (hb2 : b'.createdAt = b.createdAt) :
    MsgLe a b → MsgLe a' b' := by
  simp only [MsgLe, sortByPriorityAndTime, ha1, ha2, hb1, hb2]
  exact id

/-- The stable sort used to model `Array.prototype.sort(sortByPriorityAndTime)`. -/
def sortMessages {T : Type} (l : List (Message T)) : List (Message T) :=
  List.insertionSort MsgLe l

/-- The options record of `enqueue(data, { priority?, delay?, id? })`. -/
structure EnqueueOptions where
  priority : Option Int
  delay : Option Int
  id : Option String
deriving DecidableEq, Repr

/-- JavaScript truthiness of an optional number (`undefined` and `0` falsy). -/
def intTruthy : Option Int → Bool
  | none => false
  | some d => decide (d ≠ 0)

/-- JavaScript truthiness of an optional string (`undefined` and `""` falsy). -/
def strTruthy : Option String → Bool
  | none => false
  | some s => decide (s ≠ "")

/-- The test `options.delay && options.delay > 0`. -/
def delayPositive : Option Int → Bool
  | none => false
  | some d => decide (d ≠ 0) && decide (0 < d)

/-- The effective id `options.id || generateUniqueId()`. -/
def effectiveId (opts : EnqueueOptions) (genId : String) : String :=
  match opts.id with
  | some s => if s ≠ "" then s else genId
  | none => genId

/-- The mutable state of an `AdvancedQueue<T>` instance
(`src/core/advanced-queue.ts`): the three message collections, the options,
and the in-flight processing id set. -/
structure AdvancedQueue (T : Type) where
  messages : List (Message T)
  delayedMessages : List (Message T)
  deadLetterMessages : List (Message T)
  options : QueueOptions
  processingMessages : List String
deriving DecidableEq, Repr

/-- A freshly constructed queue (all collections empty). -/
def AdvancedQueue.init {T : Type} (o : QueueOptions) : AdvancedQueue T :=
  { messages := []
    delayedMessages := []
    deadLetterMessages := []
    options := o
    processingMessages := [] }

/-- The predicate `m.id === id`. -/
def idIs {T : Type} (i : String) (m : Message T) : Bool :=
  decide (m.id = i)

/-- The predicate `m.status === MessageStatus.PENDING`. -/
def isPending {T : Type} (m : Message T) : Bool :=
  decide (m.status = MessageStatus.pending)

/-- `getAllMessages()`: the concatenation of the three collections
(`deepClone` is the identity under value semantics). -/
def AdvancedQueue.getAllMessages {T : Type} (q : AdvancedQueue T) : List (Message T) :=
  q.messages ++ q.delayedMessages ++ q.deadLetterMessages

/-- The ids of a list of messages. -/
def idsOf {T : Type} (l : List (Message T)) : List String :=
  l.map (fun m => m.id)

/-- `findMessageById(id)`: linear scan across the three collections in order. -/
def AdvancedQueue.findMessageById {T : Type} (q : AdvancedQueue T) (id : String) :
    Option (Message T) :=
  match q.messages.find? (idIs id) with
  | some m => some m
  | none =>
    match q.delayedMessages.find? (idIs id) with
    | some m => some m
    | none => q.deadLetterMessages.find? (idIs id)

/-- Mutation of the (unique) message object bearing `id`: every list entry
aliasing that object is rewritten to the new record. -/
def AdvancedQueue.setMessage {T : Type} (q : AdvancedQueue T) (id : String)
    (m' : Message T) : AdvancedQueue T :=
  { q with
    messages := q.messages.map (fun x => if x.id = id then m' else x)
    delayedMessages := q.delayedMessages.map (fun x => if x.id = id then m' else x)
    deadLetterMessages := q.deadLetterMessages.map (fun x => if x.id = id then m' else x) }

/-- The elapsed test `message.delayUntil && message.delayUntil <= now`
(the stored timestamp is subject to number truthiness). -/
def elapsedB {T : Type} (now : Nat) (m : Message T) : Bool :=
  match m.delayUntil with
  | some t => decide (t ≠ 0) && decide (t ≤ now)
  | none => false

/-- The in-place promotion `status = PENDING; updatedAt = now`. -/
def promoteMsg {T : Type} (now : Nat) (m : Message T) : Message T :=
  { m with status := MessageStatus.pending, updatedAt := now }

/-- The ids of the delayed entries whose wait has elapsed at `now`. -/
def elapsedIds {T : Type} (q : AdvancedQueue T) (now : Nat) : List String :=
  idsOf (q.delayedMessages.filter (elapsedB now))

/-- Rewriting of an entry that aliases a promoted object: the in-place
promotion is visible through every list entry bearing a promoted id. -/
def syncAlias {T : Type} (q : AdvancedQueue T) (now : Nat) (m : Message T) : Message T :=
  if m.id ∈ elapsedIds q now then promoteMsg now m else m

/-- `checkDelayedMessages()`: partition the delayed collection into elapsed
and still-waiting entries; promote the elapsed ones (which rewrites every
alias of a promoted object, also in the other collections) and, when any
were promoted, merge them into the ready collection and re-sort it. -/
def AdvancedQueue.checkDelayedMessages {T : Type} (q : AdvancedQueue T) (now : Nat) :
    AdvancedQueue T :=
  let readyMessages := (q.delayedMessages.filter (elapsedB now)).map (promoteMsg now)
  let stillDelayed := q.delayedMessages.filter (fun m => !(elapsedB now m))
  { q with
    messages :=
      if readyMessages.isEmpty then q.messages.map (syncAlias q now)
      else sortMessages (q.messages.map (syncAlias q now) ++ readyMessages)
    delayedMessages := stillDelayed
    deadLetterMessages := q.deadLetterMessages.map (syncAlias q now) }

/-- The record built by `enqueue` for a fresh message, before the delay
branch (status by the truthiness of `options.delay`). -/
def newMessage {T : Type} (data : T) (opts : EnqueueOptions) (now : Nat)
    (genId : String) : Message T :=
  { id := effectiveId opts genId
    data := data
    priority := opts.priority.getD 0
    status := if intTruthy opts.delay then MessageStatus.delayed
              else MessageStatus.pending
    createdAt := now
    updatedAt := now
    delayUntil := none
    processingStartedAt := none
    processingAttempts := 0
    failureReason := none }

/-- The fresh record after `message.delayUntil = now + options.delay`
(taken only when `options.delay > 0`). -/
def newMessageD {T : Type} (data : T) (opts : EnqueueOptions) (now : Nat)
    (genId : String) : Message T :=
  { newMessage data opts now genId with
    delayUntil := some (now + (opts.delay.getD 0).toNat) }

/-- `enqueue(data, options)` from `src/core/advanced-queue.ts`. -/
def AdvancedQueue.enqueue {T : Type} (q : AdvancedQueue T) (data : T)
    (opts : EnqueueOptions) (now : Nat) (genId : String) :
    Message T × AdvancedQueue T :=
  match (if strTruthy opts.id then q.findMessageById (effectiveId opts genId) else none) with
  | some existing => (existing, q)
  | none =>
    if delayPositive opts.delay then
      let message := newMessageD data opts now genId
      (message, { q with delayedMessages := sortMessages (q.delayedMessages ++ [message]) })
    else
      let message := newMessage data opts now genId
      (message, { q with messages := sortMessages (q.messages ++ [message]) })

/-- `peek()`: run the delayed sweep, then the first pending ready message. -/
def AdvancedQueue.peek {T : Type} (q : AdvancedQueue T) (now : Nat) :
    Option (Message T) × AdvancedQueue T :=
  let q1 := q.checkDelayedMessages now
  (q1.messages.find? isPending, q1)

/-- `dequeue()`: run the delayed sweep, select the first pending ready
message, mark it processing. -/
def AdvancedQueue.dequeue {T : Type} (q : AdvancedQueue T) (now : Nat) :
    Option (Message T) × AdvancedQueue T :=
  let q1 := q.checkDelayedMessages now
  match q1.messages.find? isPending with
  | none => (none, q1)
  | some m0 =>
    let m1 := { m0 with
      status := MessageStatus.processing
      processingStartedAt := some now
      updatedAt := now }
    let q2 := q1.setMessage m0.id m1
    (some m1,
      { q2 with processingMessages :=
          if m0.id ∈ q2.processingMessages then q2.processingMessages
          else q2.processingMessages ++ [m0.id] })

/-- `complete(messageId)`. -/
def AdvancedQueue.complete {T : Type} (q : AdvancedQueue T) (messageId : String)
    (now : Nat) : Bool × AdvancedQueue T :=
  match q.findMessageById messageId with
  | none => (false, q)
  | some m =>
    let m1 := { m with status := MessageStatus.completed, updatedAt := now }
    let q1 := q.setMessage messageId m1
    (true, { q1 with processingMessages :=
        q1.processingMessages.filter (fun s => !(decide (s = messageId))) })

/-- The record after the unconditional part of `fail`: status Failed,
`updatedAt` stamped, `failureReason` set, attempt counter incremented. -/
def failedBase {T : Type} (m : Message T) (reason : Option String) (now : Nat) :
    Message T :=
  { m with
    status := MessageStatus.failed
    updatedAt := now
    failureReason := reason
    processingAttempts := m.processingAttempts + 1 }

/-- The record scheduled for retry: status Delayed and
`delayUntil = now + retryDelay`. -/
def failedRetry {T : Type} (m : Message T) (reason : Option String) (now rd : Nat) :
    Message T :=
  { failedBase m reason now with
    status := MessageStatus.delayed
    delayUntil := some (now + rd) }

/-- The record sent to the dead-letter collection. -/
def failedDead {T : Type} (m : Message T) (reason : Option String) (now : Nat) :
    Message T :=
  { failedBase m reason now with status := MessageStatus.dead_letter }

/-- The state after the unconditional part of `fail`: the found object
rewritten to `failedBase`, its id removed from the processing set. -/
def failQ1 {T : Type} (q : AdvancedQueue T) (messageId : String) (m : Message T)
    (reason : Option String) (now : Nat) : AdvancedQueue T :=
  { q.setMessage messageId (failedBase m reason now) with
    processingMessages := q.processingMessages.filter (fun s => !(decide (s = messageId))) }

/-- The state after the retry branch of `fail`: the object rewritten to
`failedRetry`, spliced out of the ready collection, pushed into the delayed
collection, which is then re-sorted. -/
def failQ3 {T : Type} (q : AdvancedQueue T) (messageId : String) (m : Message T)
    (reason : Option String) (now : Nat) : AdvancedQueue T :=
  { (failQ1 q messageId m reason now).setMessage messageId
      (failedRetry m reason now q.options.retryDelay) with
    messages := ((failQ1 q messageId m reason now).setMessage messageId
      (failedRetry m reason now q.options.retryDelay)).messages.filter
        (fun x => !(idIs messageId x))
    delayedMessages := sortMessages (((failQ1 q messageId m reason now).setMessage messageId
      (failedRetry m reason now q.options.retryDelay)).delayedMessages ++
        [failedRetry m reason now q.options.retryDelay]) }

/-- The state after the dead-letter branch of `fail`: the object rewritten to
`failedDead`, spliced out of the ready and delayed collections, appended to
the dead-letter collection. -/
def failQDead {T : Type} (q : AdvancedQueue T) (messageId : String) (m : Message T)
    (reason : Option String) (now : Nat) : AdvancedQueue T :=
  { (failQ1 q messageId m reason now).setMessage messageId (failedDead m reason now) with
    messages := ((failQ1 q messageId m reason now).setMessage messageId
      (failedDead m reason now)).messages.filter (fun x => !(idIs messageId x))
    delayedMessages := ((failQ1 q messageId m reason now).setMessage messageId
      (failedDead m reason now)).delayedMessages.filter (fun x => !(idIs messageId x))
    deadLetterMessages := ((failQ1 q messageId m reason now).setMessage messageId
      (failedDead m reason now)).deadLetterMessages ++ [failedDead m reason now] }

/-- `fail(messageId, reason)` from `src/core/advanced-queue.ts`.  After the
retry transition, when `autoCheckDelayed` is set the code immediately runs a
delayed sweep. -/
def AdvancedQueue.fail {T : Type} (q : AdvancedQueue T) (messageId : String)
    (reason : Option String) (now : Nat) : Bool × AdvancedQueue T :=
  match q.findMessageById messageId with
  | none => (false, q)
  | some m =>
    if (failedBase m reason now).processingAttempts < q.options.maxRetries then
      (true, if q.options.autoCheckDelayed then
          (failQ3 q messageId m reason now).checkDelayedMessages now
        else failQ3 q messageId m reason now)
    else if q.options.deadLetterEnabled then
      (true, failQDead q messageId m reason now)
    else
      (true, failQ1 q messageId m reason now)

/-- `cancelDelayed(messageId)`: splice out of the delayed collection only. -/
def AdvancedQueue.cancelDelayed {T : Type} (q : AdvancedQueue T) (messageId : String) :
    Bool × AdvancedQueue T :=
  if q.delayedMessages.any (idIs messageId) then
    (true, { q with delayedMessages := q.delayedMessages.eraseP (idIs messageId) })
  else
    (false, q)

/-- The reset applied by `retryDeadLetter`: attempts back to 0, processing
timestamp / failure reason / delay cleared, status Pending. -/
def resetDeadLetter {T : Type} (m : Message T) (now : Nat) : Message T :=
  { m with
    processingAttempts := 0
    processingStartedAt := none
    status := MessageStatus.pending
    updatedAt := now
    failureReason := none
    delayUntil := none }

/-- The state produced by a successful `retryDeadLetter`: the found entry
spliced out of the dead-letter collection, every alias of the object
rewritten to the reset record, and the reset record pushed into the ready
collection, which is then re-sorted. -/
def retryQ {T : Type} (q : AdvancedQueue T) (messageId : String) (m : Message T)
    (now : Nat) : AdvancedQueue T :=
  { (AdvancedQueue.setMessage
      { q with deadLetterMessages := q.deadLetterMessages.eraseP (idIs messageId) }
      messageId (resetDeadLetter m now)) with
    messages := sortMessages ((AdvancedQueue.setMessage
      { q with deadLetterMessages := q.deadLetterMessages.eraseP (idIs messageId) }
      messageId (resetDeadLetter m now)).messages ++ [resetDeadLetter m now]) }

/-- `retryDeadLetter(messageId)`. -/
def AdvancedQueue.retryDeadLetter {T : Type} (q : AdvancedQueue T) (messageId : String)
    (now : Nat) : Bool × AdvancedQueue T :=
  match q.deadLetterMessages.find? (idIs messageId) with
  | none => (false, q)
  | some m => (true, retryQ q messageId m now)

/-- `size()`: pending messages in the ready collection. -/
def AdvancedQueue.size {T : Type} (q : AdvancedQueue T) : Nat :=
  (q.messages.filter isPending).length

/-- `totalSize()`: all messages across the three collections. -/
def AdvancedQueue.totalSize {T : Type} (q : AdvancedQueue T) : Nat :=
  q.messages.length + q.delayedMessages.length + q.deadLetterMessages.length

/-- `clear()`. -/
def AdvancedQueue.clear {T : Type} (q : AdvancedQueue T) : AdvancedQueue T :=
  { q with
    messages := []
    delayedMessages := []
    deadLetterMessages := []
    processingMessages := [] }

/-- The state of an `AdvancedTopicQueue<T>`
(`src/core/advanced-topic-queue.ts`): the base queue plus whether a
`BroadcastChannel` was successfully created. -/
structure AdvancedTopicQueue (T : Type) where
  base : AdvancedQueue T
  hasChannel : Bool
deriving DecidableEq, Repr

/-- `AdvancedTopicQueue.enqueue`: delegate to the base `enqueue`, then post
the returned message to the channel when the channel exists and
`options.delay` is falsy.  The third component collects the
`channel.postMessage` calls made. -/
def AdvancedTopicQueue.enqueue {T : Type} (q : AdvancedTopicQueue T) (data : T)
    (opts : EnqueueOptions) (now : Nat) (genId : String) :
    Message T × AdvancedTopicQueue T × List (Message T) :=
  let r := q.base.enqueue data opts now genId
  let posted := if q.hasChannel && !(intTruthy opts.delay) then [r.1] else []
  (r.1, { q with base := r.2 }, posted)

/-! ### Generic lemmas about the stable sort, `find?`, ids -/

theorem sortMessages_perm {T : Type} (l : List (Message T)) :
    List.Perm (sortMessages l) l :=
  List.perm_insertionSort MsgLe l

theorem sortMessages_sorted {T : Type} (l : List (Message T)) :
    (sortMessages l).Pairwise MsgLe :=
  List.sorted_insertionSort MsgLe l

theorem mem_sortMessages {T : Type} {m : Message T} {l : List (Message T)} :
    m ∈ sortMessages l ↔ m ∈ l :=
  (sortMessages_perm l).mem_iff

/-- In a list sorted by the comparator, the first pending entry is pending and
ranks no later than every pending entry of the list. -/
theorem find?_pending_first {T : Type} {l : List (Message T)} (hs : l.Pairwise MsgLe)
    {m0 : Message T} (h : l.find? isPending = some m0) :
    m0 ∈ l ∧ m0.status = MessageStatus.pending ∧
      ∀ m' ∈ l, m'.status = MessageStatus.pending → MsgLe m0 m' := by
  induction l with
  | nil => simp at h
  | cons x xs ih =>
    by_cases hx : isPending x = true
    · rw [List.find?_cons_of_pos _ hx] at h
      obtain rfl : x = m0 := by injection h
      refine ⟨List.mem_cons_self _ _, by simpa [isPending] using hx, ?_⟩
      intro m' hm' _
      rcases List.mem_cons.mp hm' with rfl | hm'
      · exact msgLe_refl _
      · exact (List.pairwise_cons.mp hs).1 m' hm'
    · rw [List.find?_cons_of_neg _ hx] at h
      obtain ⟨h1, h2, h3⟩ := ih (List.pairwise_cons.mp hs).2 h
      refine ⟨List.mem_cons_of_mem _ h1, h2, ?_⟩
      intro m' hm' hp
      rcases List.mem_cons.mp hm' with rfl | hm'
      · exact absurd (by simpa [isPending] using hp) hx
      · exact h3 m' hm' hp

/-- If the only entry satisfying the predicate is `m`, `find?` returns `m`. -/
theorem find?_eq_of_unique {α : Type} {p : α → Bool} {l : List α} {m : α}
    (hm : m ∈ l) (hp : p m = true) (hu : ∀ x ∈ l, p x = true → x = m) :
    l.find? p = some m := by
  induction l with
  | nil => simp at hm
  | cons x xs ih =>
    by_cases hx : p x = true
    · rw [List.find?_cons_of_pos _ hx]
      rw [hu x (List.mem_cons_self _ _) hx]
    · rw [List.find?_cons_of_neg _ hx]
      rcases List.mem_cons.mp hm with rfl | hm'
      · exact absurd hp hx
      · exact ih hm' (fun x hx' => hu x (List.mem_cons_of_mem _ hx'))

theorem idsOf_append {T : Type} (l₁ l₂ : List (Message T)) :
    idsOf (l₁ ++ l₂) = idsOf l₁ ++ idsOf l₂ :=
  List.map_append _ _ _

theorem mem_idsOf {T : Type} {i : String} {l : List (Message T)} :
    i ∈ idsOf l ↔ ∃ m ∈ l, m.id = i := by
  simp [idsOf]

theorem idsOf_map_id_preserving {T : Type} {l : List (Message T)}
    {f : Message T → Message T} (h : ∀ x ∈ l, (f x).id = x.id) :
    idsOf (l.map f) = idsOf l := by
  simp only [idsOf, List.map_map]
  exact List.map_congr_left (fun a ha => h a ha)

theorem idsOf_filter_not_id {T : Type} (l : List (Message T)) (i : String) :
    idsOf (l.filter (fun x => !(idIs i x))) =
      (idsOf l).filter (fun s => !(decide (s = i))) := by
  induction l with
  | nil => rfl
  | cons x xs ih =>
    by_cases hx : x.id = i <;>
      (simp [idsOf, idIs, hx, List.filter_cons] at ih ⊢; exact ih)

theorem idsOf_eraseP {T : Type} (l : List (Message T)) (i : String) :
    idsOf (l.eraseP (idIs i)) = (idsOf l).eraseP (fun s => decide (s = i)) := by
  induction l with
  | nil => rfl
  | cons x xs ih =>
    by_cases hx : x.id = i
    · simp [idsOf, idIs, hx, List.eraseP_cons]
    · simp [idsOf, idIs, hx, List.eraseP_cons] at ih ⊢; exact ih

/-! ### Membership facts about `findMessageById` and collections -/

theorem findMessageById_mem {T : Type} {q : AdvancedQueue T} {i : String}
    {m : Message T} (h : q.findMessageById i = some m) :
    m ∈ q.getAllMessages ∧ m.id = i := by
  unfold AdvancedQueue.findMessageById at h
  unfold AdvancedQueue.getAllMessages
  rcases h1 : q.messages.find? (idIs i) with _ | m1 <;> rw [h1] at h
  · rcases h2 : q.delayedMessages.find? (idIs i) with _ | m2 <;> rw [h2] at h
    · have hm := List.mem_of_find?_eq_some h
      have hp := List.find?_some h
      exact ⟨by simp [hm], by simpa [idIs] using hp⟩
    · obtain rfl : m2 = m := by injection h
      have hm := List.mem_of_find?_eq_some h2
      have hp := List.find?_some h2
      exact ⟨by simp [hm], by simpa [idIs] using hp⟩
  · obtain rfl : m1 = m := by injection h
    have hm := List.mem_of_find?_eq_some h1
    have hp := List.find?_some h1
    exact ⟨by simp [hm], by simpa [idIs] using hp⟩

theorem findMessageById_eq_none {T : Type} {q : AdvancedQueue T} {i : String} :
    q.findMessageById i = none ↔ ∀ m ∈ q.getAllMessages, m.id ≠ i := by
  unfold AdvancedQueue.findMessageById AdvancedQueue.getAllMessages
  constructor
  · intro h m hm
    rcases h1 : q.messages.find? (idIs i) with _ | m1 <;> rw [h1] at h
    · rcases h2 : q.delayedMessages.find? (idIs i) with _ | m2 <;> rw [h2] at h
      · have n1 := List.find?_eq_none.mp h1
        have n2 := List.find?_eq_none.mp h2
        have n3 := List.find?_eq_none.mp h
        simp only [List.mem_append] at hm
        rcases hm with (hm | hm) | hm
        · simpa [idIs] using n1 m hm
        · simpa [idIs] using n2 m hm
        · simpa [idIs] using n3 m hm
      · simp at h
    · simp at h
  · intro h
    have n1 : q.messages.find? (idIs i) = none :=
      List.find?_eq_none.mpr (fun x hx => by
        simpa [idIs] using h x (by simp [List.mem_append, hx]))
    have n2 : q.delayedMessages.find? (idIs i) = none :=
      List.find?_eq_none.mpr (fun x hx => by
        simpa [idIs] using h x (by simp [List.mem_append, hx]))
    have n3 : q.deadLetterMessages.find? (idIs i) = none :=
      List.find?_eq_none.mpr (fun x hx => by
        simpa [idIs] using h x (by simp [List.mem_append, hx]))
    rw [n1, n2, n3]

/-! ### The sortedness / shared-key invariant of reachable states -/

/-- All aliases of one id agree on the fields the comparator reads.  This
holds in every state the engine can produce, because entries sharing an id
alias one object. -/
def KeysById {T : Type} (q : AdvancedQueue T) : Prop :=
  ∀ m ∈ q.getAllMessages, ∀ m' ∈ q.getAllMessages, m.id = m'.id →
    m.priority = m'.priority ∧ m.createdAt = m'.createdAt

/-- The state invariant: the ready collection is sorted by the comparator
and aliases agree on the comparator fields. -/
def QueueInv {T : Type} (q : AdvancedQueue T) : Prop :=
  q.messages.Pairwise MsgLe ∧ KeysById q

theorem mem_all_of_mem_messages {T : Type} {q : AdvancedQueue T} {x : Message T}
    (h : x ∈ q.messages) : x ∈ q.getAllMessages := by
  simp [AdvancedQueue.getAllMessages, h]

theorem mem_all_of_mem_delayed {T : Type} {q : AdvancedQueue T} {x : Message T}
    (h : x ∈ q.delayedMessages) : x ∈ q.getAllMessages := by
  simp [AdvancedQueue.getAllMessages, h]

theorem mem_all_of_mem_dead {T : Type} {q : AdvancedQueue T} {x : Message T}
    (h : x ∈ q.deadLetterMessages) : x ∈ q.getAllMessages := by
  simp [AdvancedQueue.getAllMessages, h]

theorem pairwise_msgLe_map {T : Type} {l : List (Message T)} {f : Message T → Message T}
    (hf : ∀ x ∈ l, (f x).priority = x.priority ∧ (f x).createdAt = x.createdAt)
    (hl : l.Pairwise MsgLe) : (l.map f).Pairwise MsgLe := by
  rw [List.pairwise_map]
  refine hl.imp_of_mem ?_
  intro a b ha hb hab
  exact msgLe_congr (hf a ha).1 (hf a ha).2 (hf b hb).1 (hf b hb).2 hab

/-- Transfer of `KeysById` along an id/keys-preserving origin map. -/
theorem keysById_origin {T : Type} {q q' : AdvancedQueue T}
    (h : ∀ x ∈ q'.getAllMessages, ∃ y ∈ q.getAllMessages,
      x.id = y.id ∧ x.priority = y.priority ∧ x.createdAt = y.createdAt)
    (hq : KeysById q) : KeysById q' := by
  intro m hm m' hm' hid
  obtain ⟨y, hy, hyid, hyp, hyc⟩ := h m hm
  obtain ⟨y', hy', hyid', hyp', hyc'⟩ := h m' hm'
  have hk := hq y hy y' hy' (by rw [← hyid, ← hyid', hid])
  exact ⟨by rw [hyp, hyp', hk.1], by rw [hyc, hyc', hk.2]⟩

/-- Transfer of `KeysById` when one record is inserted whose comparator
fields agree with every existing alias of its id. -/
theorem keysById_insert {T : Type} {q q' : AdvancedQueue T} (msg : Message T)
    (hsub : ∀ x ∈ q'.getAllMessages, x ∈ q.getAllMessages ∨ x = msg)
    (hkey : ∀ x ∈ q.getAllMessages, x.id = msg.id →
      msg.priority = x.priority ∧ msg.createdAt = x.createdAt)
    (hq : KeysById q) : KeysById q' := by
  intro m hm m' hm' hid
  rcases hsub m hm with h1 | h1
  · rcases hsub m' hm' with h2 | h2
    · exact hq m h1 m' h2 hid
    · subst h2
      exact ⟨((hkey m h1 hid).1).symm, ((hkey m h1 hid).2).symm⟩
  · subst h1
    rcases hsub m' hm' with h2 | h2
    · exact hkey m' h2 hid.symm
    · subst h2; exact ⟨rfl, rfl⟩

theorem getAllMessages_setMessage {T : Type} (q : AdvancedQueue T) (i : String)
    (m' : Message T) :
    (q.setMessage i m').getAllMessages =
      q.getAllMessages.map (fun x => if x.id = i then m' else x) := by
  simp [AdvancedQueue.setMessage, AdvancedQueue.getAllMessages]

theorem queueInv_setMessage {T : Type} {q : AdvancedQueue T} {i : String}
    {m' : Message T} (hq : QueueInv q) (hid' : m'.id = i)
    (hkey : ∀ x ∈ q.getAllMessages, x.id = i →
      m'.priority = x.priority ∧ m'.createdAt = x.createdAt) :
    QueueInv (q.setMessage i m') := by
  constructor
  · apply pairwise_msgLe_map _ hq.1
    intro x hx
    by_cases h : x.id = i
    · have hk := hkey x (mem_all_of_mem_messages hx) h
      simp [h, hk.1, hk.2]
    · simp [h]
  · apply keysById_origin _ hq.2
    intro x hx
    rw [getAllMessages_setMessage] at hx
    obtain ⟨y, hy, hxy⟩ := List.mem_map.mp hx
    refine ⟨y, hy, ?_⟩
    by_cases h : y.id = i
    · have hk := hkey y hy h
      rw [← hxy]
      simp [h, hid', hk.1, hk.2]
    · rw [← hxy]; simp [h]

theorem syncAlias_keys {T : Type} (q : AdvancedQueue T) (now : Nat) (m : Message T) :
    (syncAlias q now m).id = m.id ∧ (syncAlias q now m).priority = m.priority ∧
      (syncAlias q now m).createdAt = m.createdAt := by
  unfold syncAlias promoteMsg
  split <;> simp

theorem promoteMsg_keys {T : Type} (now : Nat) (m : Message T) :
    (promoteMsg now m).id = m.id ∧ (promoteMsg now m).priority = m.priority ∧
      (promoteMsg now m).createdAt = m.createdAt := by
  unfold promoteMsg
  simp

/-- Every entry of the state after a delayed sweep originates from an entry
of the previous state with the same id and comparator fields. -/
theorem checkDelayed_origin {T : Type} (q : AdvancedQueue T) (now : Nat) :
    ∀ x ∈ (q.checkDelayedMessages now).getAllMessages,
      ∃ y ∈ q.getAllMessages, x.id = y.id ∧ x.priority = y.priority ∧
        x.createdAt = y.createdAt := by
  intro x hx
  simp only [AdvancedQueue.checkDelayedMessages, AdvancedQueue.getAllMessages,
    List.mem_append] at hx
  rcases hx with (hx | hx) | hx
  · split at hx
    · obtain ⟨y, hy, hxy⟩ := List.mem_map.mp hx
      exact ⟨y, mem_all_of_mem_messages hy, by
        rw [← hxy]
        exact ⟨(syncAlias_keys q now y).1, (syncAlias_keys q now y).2.1,
          (syncAlias_keys q now y).2.2⟩⟩
    · rcases List.mem_append.mp (mem_sortMessages.mp hx) with hx' | hx'
      · obtain ⟨y, hy, hxy⟩ := List.mem_map.mp hx'
        exact ⟨y, mem_all_of_mem_messages hy, by
          rw [← hxy]
          exact ⟨(syncAlias_keys q now y).1, (syncAlias_keys q now y).2.1,
            (syncAlias_keys q now y).2.2⟩⟩
      · obtain ⟨y, hy, hxy⟩ := List.mem_map.mp hx'
        refine ⟨y, mem_all_of_mem_delayed (List.mem_of_mem_filter hy), ?_⟩
        rw [← hxy]
        exact ⟨(promoteMsg_keys now y).1, (promoteMsg_keys now y).2.1,
          (promoteMsg_keys now y).2.2⟩
  · exact ⟨x, mem_all_of_mem_delayed (List.mem_of_mem_filter hx), rfl, rfl, rfl⟩
  · obtain ⟨y, hy, hxy⟩ := List.mem_map.mp hx
    exact ⟨y, mem_all_of_mem_dead hy, by
      rw [← hxy]
      exact ⟨(syncAlias_keys q now y).1, (syncAlias_keys q now y).2.1,
        (syncAlias_keys q now y).2.2⟩⟩

theorem queueInv_checkDelayed {T : Type} {q : AdvancedQueue T} (now : Nat)
    (hq : QueueInv q) : QueueInv (q.checkDelayedMessages now) := by
  constructor
  · show (AdvancedQueue.messages _).Pairwise MsgLe
    simp only [AdvancedQueue.checkDelayedMessages]
    split
    · exact pairwise_msgLe_map
        (fun x _ => ⟨(syncAlias_keys q now x).2.1, (syncAlias_keys q now x).2.2⟩) hq.1
    · exact sortMessages_sorted _
  · exact keysById_origin (checkDelayed_origin q now) hq.2

theorem queueInv_procUpdate {T : Type} (q : AdvancedQueue T) (p : List String) :
    QueueInv { q with processingMessages := p } ↔ QueueInv q :=
  Iff.rfl


theorem all_sub_insert_messages {T : Type} (q : AdvancedQueue T) (msg : Message T) :
    ∀ x ∈ (AdvancedQueue.getAllMessages
      { q with messages := sortMessages (q.messages ++ [msg]) }),
      x ∈ q.getAllMessages ∨ x = msg := by
  intro x hx
  simp only [AdvancedQueue.getAllMessages, List.mem_append] at hx ⊢
  rcases hx with (hx | hx) | hx
  · rcases List.mem_append.mp (mem_sortMessages.mp hx) with hx' | hx'
    · exact Or.inl (Or.inl (Or.inl hx'))
    · simp at hx'
      exact Or.inr hx'
  · exact Or.inl (Or.inl (Or.inr hx))
  · exact Or.inl (Or.inr hx)

theorem all_sub_insert_delayed {T : Type} (q : AdvancedQueue T) (msg : Message T) :
    ∀ x ∈ (AdvancedQueue.getAllMessages
      { q with delayedMessages := sortMessages (q.delayedMessages ++ [msg]) }),
      x ∈ q.getAllMessages ∨ x = msg := by
  intro x hx
  simp only [AdvancedQueue.getAllMessages, List.mem_append] at hx ⊢
  rcases hx with (hx | hx) | hx
  · exact Or.inl (Or.inl (Or.inl hx))
  · rcases List.mem_append.mp (mem_sortMessages.mp hx) with hx' | hx'
    · exact Or.inl (Or.inl (Or.inr hx'))
    · simp at hx'
      exact Or.inr hx'
  · exact Or.inl (Or.inr hx)

theorem enqueue_existing {T : Type} {q : AdvancedQueue T} {data : T}
    {opts : EnqueueOptions} {now : Nat} {genId : String} {m : Message T}
    (hs : strTruthy opts.id = true)
    (hfind : q.findMessageById (effectiveId opts genId) = some m) :
    q.enqueue data opts now genId = (m, q) := by
  unfold AdvancedQueue.enqueue
  rw [hs, if_pos rfl, hfind]

theorem enqueue_not_found_delayed {T : Type} {q : AdvancedQueue T} {data : T}
    {opts : EnqueueOptions} {now : Nat} {genId : String}
    (hnone : strTruthy opts.id = true →
      q.findMessageById (effectiveId opts genId) = none)
    (hd : delayPositive opts.delay = true) :
    q.enqueue data opts now genId =
      (newMessageD data opts now genId,
        { q with delayedMessages :=
            sortMessages (q.delayedMessages ++ [newMessageD data opts now genId]) }) := by
  unfold AdvancedQueue.enqueue
  cases hs : strTruthy opts.id with
  | true => rw [if_pos rfl, hnone hs]; simp [hd]
  | false => rw [if_neg (by simp)]; simp [hd]

theorem enqueue_not_found_ready {T : Type} {q : AdvancedQueue T} {data : T}
    {opts : EnqueueOptions} {now : Nat} {genId : String}
    (hnone : strTruthy opts.id = true →
      q.findMessageById (effectiveId opts genId) = none)
    (hd : delayPositive opts.delay = false) :
    q.enqueue data opts now genId =
      (newMessage data opts now genId,
        { q with messages :=
            sortMessages (q.messages ++ [newMessage data opts now genId]) }) := by
  unfold AdvancedQueue.enqueue
  cases hs : strTruthy opts.id with
  | true => rw [if_pos rfl, hnone hs]; simp [hd]
  | false => rw [if_neg (by simp)]; simp [hd]

theorem newMessage_id {T : Type} (data : T) (opts : EnqueueOptions) (now : Nat)
    (genId : String) : (newMessage data opts now genId).id = effectiveId opts genId :=
  rfl

theorem newMessageD_id {T : Type} (data : T) (opts : EnqueueOptions) (now : Nat)
    (genId : String) : (newMessageD data opts now genId).id = effectiveId opts genId :=
  rfl

theorem queueInv_enqueue {T : Type} {q : AdvancedQueue T} {data : T}
    {opts : EnqueueOptions} {now : Nat} {genId : String} (hq : QueueInv q)
    (hfresh : strTruthy opts.id = false →
      effectiveId opts genId ∉ idsOf q.getAllMessages) :
    QueueInv (q.enqueue data opts now genId).2 := by
  by_cases hs : strTruthy opts.id = true
  · cases hfind : q.findMessageById (effectiveId opts genId) with
    | some existing => rw [enqueue_existing hs hfind]; exact hq
    | none =>
      have hid : effectiveId opts genId ∉ idsOf q.getAllMessages := by
        intro hmem
        obtain ⟨m, hm, hmid⟩ := mem_idsOf.mp hmem
        exact (findMessageById_eq_none.mp hfind m hm) hmid
      cases hd : delayPositive opts.delay with
      | true =>
        rw [enqueue_not_found_delayed (fun _ => hfind) hd]
        refine ⟨hq.1, keysById_insert (newMessageD data opts now genId)
          (all_sub_insert_delayed q _) ?_ hq.2⟩
        intro x hx hxid
        rw [newMessageD_id] at hxid
        exact absurd (mem_idsOf.mpr ⟨x, hx, hxid⟩) hid
      | false =>
        rw [enqueue_not_found_ready (fun _ => hfind) hd]
        refine ⟨sortMessages_sorted _, keysById_insert (newMessage data opts now genId)
          (all_sub_insert_messages q _) ?_ hq.2⟩
        intro x hx hxid
        rw [newMessage_id] at hxid
        exact absurd (mem_idsOf.mpr ⟨x, hx, hxid⟩) hid
  · have hs' : strTruthy opts.id = false := by simpa using hs
    have hid := hfresh hs'
    cases hd : delayPositive opts.delay with
    | true =>
      rw [enqueue_not_found_delayed (fun h => absurd h hs) hd]
      refine ⟨hq.1, keysById_insert (newMessageD data opts now genId)
        (all_sub_insert_delayed q _) ?_ hq.2⟩
      intro x hx hxid
      rw [newMessageD_id] at hxid
      exact absurd (mem_idsOf.mpr ⟨x, hx, hxid⟩) hid
    | false =>
      rw [enqueue_not_found_ready (fun h => absurd h hs) hd]
      refine ⟨sortMessages_sorted _, keysById_insert (newMessage data opts now genId)
        (all_sub_insert_messages q _) ?_ hq.2⟩
      intro x hx hxid
      rw [newMessage_id] at hxid
      exact absurd (mem_idsOf.mpr ⟨x, hx, hxid⟩) hid

theorem getAllMessages_procUpdate {T : Type} (q : AdvancedQueue T) (p : List String) :
    (AdvancedQueue.getAllMessages { q with processingMessages := p }) =
      q.getAllMessages :=
  rfl

theorem keysById_insert_mem {T : Type} {q q' : AdvancedQueue T} (msg : Message T)
    (hsub : ∀ x ∈ q'.getAllMessages, x ∈ q.getAllMessages ∨ x = msg)
    (hmsg : msg ∈ q.getAllMessages) (hq : KeysById q) : KeysById q' :=
  keysById_insert msg hsub
    (fun x hx hxid => hq msg hmsg x hx hxid.symm) hq

theorem queueInv_clear {T : Type} (q : AdvancedQueue T) : QueueInv q.clear := by
  refine ⟨by simp [AdvancedQueue.clear], ?_⟩
  intro m hm
  simp [AdvancedQueue.clear, AdvancedQueue.getAllMessages] at hm

theorem queueInv_cancelDelayed {T : Type} {q : AdvancedQueue T} {i : String}
    (hq : QueueInv q) : QueueInv (q.cancelDelayed i).2 := by
  unfold AdvancedQueue.cancelDelayed
  split
  · refine ⟨hq.1, keysById_origin ?_ hq.2⟩
    intro x hx
    simp only [AdvancedQueue.getAllMessages, List.mem_append] at hx
    rcases hx with (hx | hx) | hx
    · exact ⟨x, mem_all_of_mem_messages hx, rfl, rfl, rfl⟩
    · exact ⟨x, mem_all_of_mem_delayed ((List.eraseP_sublist _).subset hx), rfl, rfl, rfl⟩
    · exact ⟨x, mem_all_of_mem_dead hx, rfl, rfl, rfl⟩
  · exact hq


theorem queueInv_dequeue {T : Type} {q : AdvancedQueue T} {now : Nat}
    (hq : QueueInv q) : QueueInv (q.dequeue now).2 := by
  simp only [AdvancedQueue.dequeue]
  have h1 : QueueInv (q.checkDelayedMessages now) := queueInv_checkDelayed now hq
  cases hfind : List.find? isPending (q.checkDelayedMessages now).messages with
  | none => exact h1
  | some m0 =>
    have hmem : m0 ∈ (q.checkDelayedMessages now).messages :=
      List.mem_of_find?_eq_some hfind
    refine (queueInv_procUpdate _ _).mpr ?_
    refine queueInv_setMessage h1 rfl ?_
    intro x hx hxid
    exact h1.2 m0 (mem_all_of_mem_messages hmem) x hx hxid.symm

theorem queueInv_complete {T : Type} {q : AdvancedQueue T} {i : String} {now : Nat}
    (hq : QueueInv q) : QueueInv (q.complete i now).2 := by
  simp only [AdvancedQueue.complete]
  cases hfind : q.findMessageById i with
  | none => exact hq
  | some m =>
    obtain ⟨hmem, hmid⟩ := findMessageById_mem hfind
    refine (queueInv_procUpdate _ _).mpr ?_
    refine queueInv_setMessage hq (by simp [hmid]) ?_
    intro x hx hxid
    exact hq.2 m hmem x hx (hmid.trans hxid.symm)

theorem queueInv_retryDeadLetter {T : Type} {q : AdvancedQueue T} {i : String}
    {now : Nat} (hq : QueueInv q) : QueueInv (q.retryDeadLetter i now).2 := by
  simp only [AdvancedQueue.retryDeadLetter]
  cases hfind : List.find? (idIs i) q.deadLetterMessages with
  | none => exact hq
  | some m =>
    have hmem : m ∈ q.getAllMessages :=
      mem_all_of_mem_dead (List.mem_of_find?_eq_some hfind)
    have hmid : m.id = i := by simpa [idIs] using List.find?_some hfind
    have hq0 : QueueInv { q with
        deadLetterMessages := q.deadLetterMessages.eraseP (idIs i) } := by
      refine ⟨hq.1, keysById_origin ?_ hq.2⟩
      intro x hx
      simp only [AdvancedQueue.getAllMessages, List.mem_append] at hx
      rcases hx with (hx | hx) | hx
      · exact ⟨x, mem_all_of_mem_messages hx, rfl, rfl, rfl⟩
      · exact ⟨x, mem_all_of_mem_delayed hx, rfl, rfl, rfl⟩
      · exact ⟨x, mem_all_of_mem_dead ((List.eraseP_sublist _).subset hx), rfl, rfl, rfl⟩
    have hq1 : QueueInv (AdvancedQueue.setMessage
        { q with deadLetterMessages := q.deadLetterMessages.eraseP (idIs i) } i
        (resetDeadLetter m now)) := by
      refine queueInv_setMessage hq0 (by simp [resetDeadLetter, hmid]) ?_
      intro x hx hxid
      refine hq.2 m hmem x ?_ (by simp [resetDeadLetter, hmid, hxid])
      simp only [AdvancedQueue.getAllMessages, List.mem_append] at hx ⊢
      rcases hx with (hx | hx) | hx
      · exact Or.inl (Or.inl hx)
      · exact Or.inl (Or.inr hx)
      · exact Or.inr ((List.eraseP_sublist _).subset hx)
    refine ⟨sortMessages_sorted _, keysById_insert (resetDeadLetter m now) ?_ ?_ hq1.2⟩
    · intro x hx
      simp only [AdvancedQueue.getAllMessages, List.mem_append] at hx ⊢
      rcases hx with (hx | hx) | hx
      · rcases List.mem_append.mp (mem_sortMessages.mp hx) with hx' | hx'
        · exact Or.inl (Or.inl (Or.inl hx'))
        · simp at hx'
          exact Or.inr hx'
      · exact Or.inl (Or.inl (Or.inr hx))
      · exact Or.inl (Or.inr hx)
    · intro x hx hxid
      rw [getAllMessages_setMessage] at hx
      obtain ⟨y, hy, hxy⟩ := List.mem_map.mp hx
      by_cases h : y.id = i
      · rw [← hxy]
        simp [h]
      · rw [← hxy] at hxid ⊢
        simp only [h, if_neg] at hxid ⊢
        exact absurd (hxid.trans (by simp [resetDeadLetter, hmid])) h

theorem queueInv_peek {T : Type} {q : AdvancedQueue T} {now : Nat}
    (hq : QueueInv q) : QueueInv (q.peek now).2 :=
  queueInv_checkDelayed now hq


theorem failedBase_attempts {T : Type} (m : Message T) (reason : Option String)
    (now : Nat) :
    (failedBase m reason now).processingAttempts = m.processingAttempts + 1 :=
  rfl

theorem fail_eq_none {T : Type} {q : AdvancedQueue T} {i : String}
    {reason : Option String} {now : Nat} (hfind : q.findMessageById i = none) :
    q.fail i reason now = (false, q) := by
  unfold AdvancedQueue.fail
  rw [hfind]

theorem fail_eq_retry {T : Type} {q : AdvancedQueue T} {i : String} {m : Message T}
    {reason : Option String} {now : Nat} (hfind : q.findMessageById i = some m)
    (hlt : m.processingAttempts + 1 < q.options.maxRetries) :
    q.fail i reason now =
      (true, if q.options.autoCheckDelayed then
          (failQ3 q i m reason now).checkDelayedMessages now
        else failQ3 q i m reason now) := by
  unfold AdvancedQueue.fail
  rw [hfind]
  simp only [failedBase_attempts, hlt, if_true]

theorem fail_eq_dead {T : Type} {q : AdvancedQueue T} {i : String} {m : Message T}
    {reason : Option String} {now : Nat} (hfind : q.findMessageById i = some m)
    (hge : ¬(m.processingAttempts + 1 < q.options.maxRetries))
    (hdl : q.options.deadLetterEnabled = true) :
    q.fail i reason now = (true, failQDead q i m reason now) := by
  unfold AdvancedQueue.fail
  rw [hfind]
  simp only [failedBase_attempts, hge, if_false, hdl, if_true]

theorem fail_eq_parked {T : Type} {q : AdvancedQueue T} {i : String} {m : Message T}
    {reason : Option String} {now : Nat} (hfind : q.findMessageById i = some m)
    (hge : ¬(m.processingAttempts + 1 < q.options.maxRetries))
    (hdl : q.options.deadLetterEnabled = false) :
    q.fail i reason now = (true, failQ1 q i m reason now) := by
  unfold AdvancedQueue.fail
  rw [hfind]
  simp [failedBase_attempts, hge, hdl]

theorem queueInv_failQ1 {T : Type} {q : AdvancedQueue T} {i : String} {m : Message T}
    {reason : Option String} {now : Nat} (hq : QueueInv q)
    (hmem : m ∈ q.getAllMessages) (hmid : m.id = i) :
    QueueInv (failQ1 q i m reason now) := by
  unfold failQ1
  refine (queueInv_procUpdate _ _).mpr ?_
  refine queueInv_setMessage hq (by simp [failedBase, hmid]) ?_
  intro x hx hxid
  exact hq.2 m hmem x hx (hmid.trans hxid.symm)

theorem getAllMessages_failQ1 {T : Type} (q : AdvancedQueue T) (i : String)
    (m : Message T) (reason : Option String) (now : Nat) :
    (failQ1 q i m reason now).getAllMessages =
      (q.setMessage i (failedBase m reason now)).getAllMessages :=
  rfl

theorem mem_failQ1 {T : Type} {q : AdvancedQueue T} {i : String} {m : Message T}
    {reason : Option String} {now : Nat} (hmem : m ∈ q.getAllMessages)
    (hmid : m.id = i) :
    failedBase m reason now ∈ (failQ1 q i m reason now).getAllMessages := by
  rw [getAllMessages_failQ1, getAllMessages_setMessage]
  exact List.mem_map.mpr ⟨m, hmem, by simp [hmid]⟩

theorem queueInv_fail_setRetry {T : Type} {q : AdvancedQueue T} {i : String}
    {m : Message T} {reason : Option String} {now : Nat} (hq : QueueInv q)
    (hmem : m ∈ q.getAllMessages) (hmid : m.id = i) :
    QueueInv ((failQ1 q i m reason now).setMessage i
      (failedRetry m reason now q.options.retryDelay)) := by
  have hq1 : QueueInv (failQ1 q i m reason now) := queueInv_failQ1 hq hmem hmid
  refine queueInv_setMessage hq1 (by simp [failedRetry, failedBase, hmid]) ?_
  intro x hx hxid
  rw [getAllMessages_failQ1, getAllMessages_setMessage] at hx
  obtain ⟨y, hy, hxy⟩ := List.mem_map.mp hx
  by_cases h : y.id = i
  · rw [← hxy]
    simp [h, failedRetry, failedBase]
  · rw [← hxy, if_neg h] at hxid
    exact absurd hxid h

theorem queueInv_fail_setDead {T : Type} {q : AdvancedQueue T} {i : String}
    {m : Message T} {reason : Option String} {now : Nat} (hq : QueueInv q)
    (hmem : m ∈ q.getAllMessages) (hmid : m.id = i) :
    QueueInv ((failQ1 q i m reason now).setMessage i (failedDead m reason now)) := by
  have hq1 : QueueInv (failQ1 q i m reason now) := queueInv_failQ1 hq hmem hmid
  refine queueInv_setMessage hq1 (by simp [failedDead, failedBase, hmid]) ?_
  intro x hx hxid
  rw [getAllMessages_failQ1, getAllMessages_setMessage] at hx
  obtain ⟨y, hy, hxy⟩ := List.mem_map.mp hx
  by_cases h : y.id = i
  · rw [← hxy]
    simp [h, failedDead, failedBase]
  · rw [← hxy, if_neg h] at hxid
    exact absurd hxid h

theorem queueInv_failQ3 {T : Type} {q : AdvancedQueue T} {i : String} {m : Message T}
    {reason : Option String} {now : Nat} (hq : QueueInv q)
    (hmem : m ∈ q.getAllMessages) (hmid : m.id = i) :
    QueueInv (failQ3 q i m reason now) := by
  have hq2 : QueueInv ((failQ1 q i m reason now).setMessage i
      (failedRetry m reason now q.options.retryDelay)) :=
    queueInv_fail_setRetry hq hmem hmid
  have hm2 : failedRetry m reason now q.options.retryDelay ∈
      ((failQ1 q i m reason now).setMessage i
        (failedRetry m reason now q.options.retryDelay)).getAllMessages := by
    rw [getAllMessages_setMessage]
    exact List.mem_map.mpr ⟨failedBase m reason now, mem_failQ1 hmem hmid,
      by simp [failedBase, hmid]⟩
  unfold failQ3
  refine ⟨hq2.1.filter _, keysById_insert_mem
    (failedRetry m reason now q.options.retryDelay) ?_ hm2 hq2.2⟩
  intro x hx
  simp only [AdvancedQueue.getAllMessages, List.mem_append] at hx ⊢
  rcases hx with (hx | hx) | hx
  · exact Or.inl (Or.inl (Or.inl (List.mem_of_mem_filter hx)))
  · rcases List.mem_append.mp (mem_sortMessages.mp hx) with hx' | hx'
    · exact Or.inl (Or.inl (Or.inr hx'))
    · simp at hx'
      exact Or.inr hx'
  · exact Or.inl (Or.inr hx)

theorem queueInv_failQDead {T : Type} {q : AdvancedQueue T} {i : String}
    {m : Message T} {reason : Option String} {now : Nat} (hq : QueueInv q)
    (hmem : m ∈ q.getAllMessages) (hmid : m.id = i) :
    QueueInv (failQDead q i m reason now) := by
  have hq2 : QueueInv ((failQ1 q i m reason now).setMessage i
      (failedDead m reason now)) :=
    queueInv_fail_setDead hq hmem hmid
  have hm2 : failedDead m reason now ∈
      ((failQ1 q i m reason now).setMessage i (failedDead m reason now)).getAllMessages := by
    rw [getAllMessages_setMessage]
    exact List.mem_map.mpr ⟨failedBase m reason now, mem_failQ1 hmem hmid,
      by simp [failedBase, hmid]⟩
  unfold failQDead
  refine ⟨hq2.1.filter _, keysById_insert_mem (failedDead m reason now) ?_ hm2 hq2.2⟩
  intro x hx
  simp only [AdvancedQueue.getAllMessages, List.mem_append] at hx ⊢
  rcases hx with (hx | hx) | hx
  · exact Or.inl (Or.inl (Or.inl (List.mem_of_mem_filter hx)))
  · exact Or.inl (Or.inl (Or.inr (List.mem_of_mem_filter hx)))
  · rcases hx with hx' | hx'
    · exact Or.inl (Or.inr hx')
    · simp at hx'
      exact Or.inr hx'

theorem queueInv_fail {T : Type} {q : AdvancedQueue T} {i : String}
    {reason : Option String} {now : Nat} (hq : QueueInv q) :
    QueueInv (q.fail i reason now).2 := by
  cases hfind : q.findMessageById i with
  | none => rw [fail_eq_none hfind]; exact hq
  | some m =>
    obtain ⟨hmem, hmid⟩ := findMessageById_mem hfind
    by_cases hlt : m.processingAttempts + 1 < q.options.maxRetries
    · rw [fail_eq_retry hfind hlt]
      by_cases hac : q.options.autoCheckDelayed = true
      · simp only [hac, if_true]
        exact queueInv_checkDelayed now (queueInv_failQ3 hq hmem hmid)
      · simp only [hac, if_false]
        exact queueInv_failQ3 hq hmem hmid
    · cases hdl : q.options.deadLetterEnabled with
      | true =>
        rw [fail_eq_dead hfind hlt hdl]
        exact queueInv_failQDead hq hmem hmid
      | false =>
        rw [fail_eq_parked hfind hlt hdl]
        exact queueInv_failQ1 hq hmem hmid

/-! ### Reachable states -/

/-- The states reachable from a fresh queue through the public operations
(including the delayed sweeps run by timers).  The `safe` flag, when set,
restricts `fail` to ids currently residing in the ready collection — the
normal dequeue-then-fail processing flow.  A generated id is assumed fresh,
which is the identity generator's contract; an explicitly supplied id needs
no assumption because `enqueue` checks it for duplication. -/
inductive Reaches {T : Type} (safe : Bool) : AdvancedQueue T → Prop where
  | init (o : QueueOptions) : Reaches safe (AdvancedQueue.init o)
  | enqueue {q : AdvancedQueue T} (data : T) (opts : EnqueueOptions) (now : Nat)
      (genId : String) (hq : Reaches safe q)
      (hfresh : strTruthy opts.id = false →
        effectiveId opts genId ∉ idsOf q.getAllMessages) :
      Reaches safe (q.enqueue data opts now genId).2
  | peek {q : AdvancedQueue T} (now : Nat) (hq : Reaches safe q) :
      Reaches safe (q.peek now).2
  | dequeue {q : AdvancedQueue T} (now : Nat) (hq : Reaches safe q) :
      Reaches safe (q.dequeue now).2
  | complete {q : AdvancedQueue T} (i : String) (now : Nat) (hq : Reaches safe q) :
      Reaches safe (q.complete i now).2
  | fail {q : AdvancedQueue T} (i : String) (reason : Option String) (now : Nat)
      (hq : Reaches safe q)
      (hsafe : safe = true → q.messages.any (idIs i) = true) :
      Reaches safe (q.fail i reason now).2
  | cancelDelayed {q : AdvancedQueue T} (i : String) (hq : Reaches safe q) :
      Reaches safe (q.cancelDelayed i).2
  | retryDeadLetter {q : AdvancedQueue T} (i : String) (now : Nat)
      (hq : Reaches safe q) : Reaches safe (q.retryDeadLetter i now).2
  | sweep {q : AdvancedQueue T} (now : Nat) (hq : Reaches safe q) :
      Reaches safe (q.checkDelayedMessages now)
  | clear {q : AdvancedQueue T} (hq : Reaches safe q) : Reaches safe q.clear

/-- Every reachable state keeps the ready collection sorted by the
comparator, and entries sharing an id agree on the comparator fields. -/
theorem queueInv_of_reaches {T : Type} {safe : Bool} {q : AdvancedQueue T}
    (h : Reaches safe q) : QueueInv q := by
  induction h with
  | init o =>
    refine ⟨by simp [AdvancedQueue.init], ?_⟩
    intro m hm
    simp [AdvancedQueue.init, AdvancedQueue.getAllMessages] at hm
  | enqueue data opts now genId hq hfresh ih => exact queueInv_enqueue ih hfresh
  | peek now hq ih => exact queueInv_peek ih
  | dequeue now hq ih => exact queueInv_dequeue ih
  | complete i now hq ih => exact queueInv_complete ih
  | fail i reason now hq hsafe ih => exact queueInv_fail ih
  | cancelDelayed i hq ih => exact queueInv_cancelDelayed ih
  | retryDeadLetter i now hq ih => exact queueInv_retryDeadLetter ih
  | sweep now hq ih => exact queueInv_checkDelayed now ih
  | clear hq ih => exact queueInv_clear _

/-! ### Id multiset bookkeeping and the uniqueness invariant -/

/-- Each id occurs at most once across the three collections combined. -/
def NodupIds {T : Type} (q : AdvancedQueue T) : Prop :=
  (idsOf q.getAllMessages).Nodup

theorem ids_all_eq {T : Type} (q : AdvancedQueue T) :
    idsOf q.getAllMessages =
      idsOf q.messages ++ idsOf q.delayedMessages ++ idsOf q.deadLetterMessages := by
  simp [AdvancedQueue.getAllMessages, idsOf]

theorem idsOf_sortMessages {T : Type} (l : List (Message T)) :
    List.Perm (idsOf (sortMessages l)) (idsOf l) :=
  (sortMessages_perm l).map _

theorem idsOf_setFn {T : Type} (l : List (Message T)) (i : String) (m' : Message T)
    (h : m'.id = i) :
    idsOf (l.map (fun x => if x.id = i then m' else x)) = idsOf l :=
  idsOf_map_id_preserving (fun x _ => by by_cases hx : x.id = i <;> simp [hx, h])

theorem idsAll_setMessage {T : Type} (q : AdvancedQueue T) (i : String)
    (m' : Message T) (h : m'.id = i) :
    idsOf (q.setMessage i m').getAllMessages = idsOf q.getAllMessages := by
  rw [getAllMessages_setMessage]
  exact idsOf_map_id_preserving (fun x _ => by by_cases hx : x.id = i <;> simp [hx, h])

theorem idsOf_syncAlias {T : Type} (q : AdvancedQueue T) (now : Nat)
    (l : List (Message T)) : idsOf (l.map (syncAlias q now)) = idsOf l :=
  idsOf_map_id_preserving (fun x _ => (syncAlias_keys q now x).1)

theorem idsOf_promote_map {T : Type} (now : Nat) (l : List (Message T)) :
    idsOf (l.map (promoteMsg now)) = idsOf l :=
  idsOf_map_id_preserving (fun x _ => (promoteMsg_keys now x).1)

/-- Splitting a `Nodup` of a triple concatenation. -/
theorem nodup_triple {α : Type} {A B C : List α} (h : (A ++ B ++ C).Nodup) :
    A.Nodup ∧ B.Nodup ∧ C.Nodup ∧ A.Disjoint B ∧ A.Disjoint C ∧ B.Disjoint C := by
  rw [List.nodup_append, List.nodup_append] at h
  obtain ⟨⟨hA, hB, hAB⟩, hC, hABC⟩ := h
  refine ⟨hA, hB, hC, hAB, ?_, ?_⟩
  · intro a ha hc
    exact hABC (List.mem_append.mpr (Or.inl ha)) hc
  · intro a hb hc
    exact hABC (List.mem_append.mpr (Or.inr hb)) hc

/-- Assembling a `Nodup` of a triple concatenation. -/
theorem nodup_triple_mk {α : Type} {A B C : List α} (hA : A.Nodup) (hB : B.Nodup)
    (hC : C.Nodup) (hAB : A.Disjoint B) (hAC : A.Disjoint C) (hBC : B.Disjoint C) :
    (A ++ B ++ C).Nodup := by
  rw [List.nodup_append, List.nodup_append]
  refine ⟨⟨hA, hB, hAB⟩, hC, ?_⟩
  intro a ha hc
  rcases List.mem_append.mp ha with h | h
  · exact hAC h hc
  · exact hBC h hc

theorem not_mem_eraseP_self {l : List String} (h : l.Nodup) (a : String) :
    a ∉ l.eraseP (fun s => decide (s = a)) := by
  induction l with
  | nil => simp
  | cons x xs ih =>
    rw [List.nodup_cons] at h
    by_cases hx : x = a
    · rw [List.eraseP_cons_of_pos (by simp [hx])]
      rw [hx] at h
      exact h.1
    · rw [List.eraseP_cons_of_neg (by simp [hx])]
      intro hmem
      rcases List.mem_cons.mp hmem with h' | h'
      · exact hx h'.symm
      · exact ih h.2 h'

theorem filter_ne_nodup {l : List String} (h : l.Nodup) (i : String) :
    (l.filter (fun s => !(decide (s = i)))).Nodup :=
  h.sublist (List.filter_sublist l) |> fun h' => h'

theorem checkDelayed_messages_eq {T : Type} (q : AdvancedQueue T) (now : Nat) :
    (q.checkDelayedMessages now).messages =
      if ((q.delayedMessages.filter (elapsedB now)).map (promoteMsg now)).isEmpty then
        q.messages.map (syncAlias q now)
      else
        sortMessages (q.messages.map (syncAlias q now) ++
          (q.delayedMessages.filter (elapsedB now)).map (promoteMsg now)) :=
  rfl

theorem checkDelayed_delayed_eq {T : Type} (q : AdvancedQueue T) (now : Nat) :
    (q.checkDelayedMessages now).delayedMessages =
      q.delayedMessages.filter (fun m => !(elapsedB now m)) :=
  rfl

theorem checkDelayed_dead_eq {T : Type} (q : AdvancedQueue T) (now : Nat) :
    (q.checkDelayedMessages now).deadLetterMessages =
      q.deadLetterMessages.map (syncAlias q now) :=
  rfl

theorem perm_assemble {α : Type} (Ms E D' Ds Ls : List α)
    (hED : List.Perm (E ++ D') Ds) :
    List.Perm ((Ms ++ E) ++ D' ++ Ls) (Ms ++ Ds ++ Ls) := by
  refine List.Perm.append_right Ls ?_
  rw [List.append_assoc]
  exact hED.append_left Ms

theorem nodupIds_checkDelayed {T : Type} {q : AdvancedQueue T} (now : Nat)
    (h : NodupIds q) : NodupIds (q.checkDelayedMessages now) := by
  unfold NodupIds at h ⊢
  rw [ids_all_eq] at h
  rw [ids_all_eq, checkDelayed_delayed_eq, checkDelayed_dead_eq, idsOf_syncAlias]
  have hmsg : List.Perm (idsOf (q.checkDelayedMessages now).messages)
      (idsOf q.messages ++ idsOf (q.delayedMessages.filter (elapsedB now))) := by
    rw [checkDelayed_messages_eq]
    split
    · rename_i hempty
      have hnil : q.delayedMessages.filter (elapsedB now) = [] := by
        simpa using hempty
      rw [idsOf_syncAlias, hnil]
      simp [idsOf]
    · exact (idsOf_sortMessages _).trans
        (by rw [idsOf_append, idsOf_syncAlias, idsOf_promote_map])
  have hfilter : List.Perm
      (idsOf (q.delayedMessages.filter (elapsedB now)) ++
        idsOf (q.delayedMessages.filter (fun m => !(elapsedB now m))))
      (idsOf q.delayedMessages) := by
    have hp := (List.filter_append_perm (elapsedB now) q.delayedMessages).map
      (fun (m : Message T) => m.id)
    simpa [idsOf, List.map_append] using hp
  have hall : List.Perm
      (idsOf (q.checkDelayedMessages now).messages ++
        idsOf (q.delayedMessages.filter (fun m => !(elapsedB now m))) ++
        idsOf q.deadLetterMessages)
      (idsOf q.messages ++ idsOf q.delayedMessages ++ idsOf q.deadLetterMessages) :=
    ((hmsg.append_right _).append_right _).trans
      (perm_assemble _ _ _ _ _ hfilter)
  exact hall.symm.nodup h

theorem mem_filter_ne {l : List String} {a i : String} :
    a ∈ l.filter (fun s => !(decide (s = i))) ↔ a ∈ l ∧ a ≠ i := by
  simp [List.mem_filter]

theorem nodup_insert_ready_ids {Ms Ds Ls : List String} {e : String}
    (h : (Ms ++ Ds ++ Ls).Nodup) (he : e ∉ Ms ++ Ds ++ Ls) :
    ((Ms ++ [e]) ++ Ds ++ Ls).Nodup := by
  have h1 : List.Perm ((Ms ++ [e]) ++ Ds ++ Ls) ((e :: Ms) ++ Ds ++ Ls) :=
    ((List.perm_append_singleton e Ms).append_right Ds).append_right Ls
  have h2 : (e :: Ms) ++ Ds ++ Ls = e :: (Ms ++ Ds ++ Ls) := rfl
  refine h1.symm.nodup ?_
  rw [h2]
  exact List.nodup_cons.mpr ⟨he, h⟩

theorem nodup_insert_delayed_ids {Ms Ds Ls : List String} {e : String}
    (h : (Ms ++ Ds ++ Ls).Nodup) (he : e ∉ Ms ++ Ds ++ Ls) :
    (Ms ++ (Ds ++ [e]) ++ Ls).Nodup := by
  have h1 : List.Perm (Ms ++ (Ds ++ [e]) ++ Ls) (Ms ++ (e :: Ds) ++ Ls) :=
    (((List.perm_append_singleton e Ds).append_left Ms).append_right Ls)
  have h2 : List.Perm (Ms ++ (e :: Ds)) (e :: (Ms ++ Ds)) := List.perm_middle
  have h3 : List.Perm (Ms ++ (e :: Ds) ++ Ls) ((e :: (Ms ++ Ds)) ++ Ls) :=
    h2.append_right Ls
  have h4 : (e :: (Ms ++ Ds)) ++ Ls = e :: (Ms ++ Ds ++ Ls) := rfl
  refine (h1.trans h3).symm.nodup ?_
  rw [h4]
  exact List.nodup_cons.mpr ⟨he, h⟩

theorem nodup_fail_retry_ids {Ms Ds Ls : List String} {i : String}
    (h : (Ms ++ Ds ++ Ls).Nodup) (hi : i ∈ Ms) :
    ((Ms.filter (fun s => !(decide (s = i)))) ++ (Ds ++ [i]) ++ Ls).Nodup := by
  obtain ⟨hMs, hDs, hLs, hMD, hML, hDL⟩ := nodup_triple h
  have hiD : i ∉ Ds := hMD hi
  have hiL : i ∉ Ls := hML hi
  refine nodup_triple_mk (hMs.sublist (List.filter_sublist Ms)) ?_ hLs ?_ ?_ ?_
  · exact (List.perm_append_singleton i Ds).symm.nodup
      (List.nodup_cons.mpr ⟨hiD, hDs⟩)
  · intro a ha hb
    obtain ⟨haM, hane⟩ := mem_filter_ne.mp ha
    rcases List.mem_append.mp hb with hb' | hb'
    · exact hMD haM hb'
    · simp at hb'
      exact hane hb'
  · intro a ha hc
    exact hML (mem_filter_ne.mp ha).1 hc
  · intro a hb hc
    rcases List.mem_append.mp hb with hb' | hb'
    · exact hDL hb' hc
    · simp at hb'
      subst hb'
      exact hiL hc

theorem nodup_fail_dead_ids {Ms Ds Ls : List String} {i : String}
    (h : (Ms ++ Ds ++ Ls).Nodup) (hi : i ∈ Ms) :
    ((Ms.filter (fun s => !(decide (s = i)))) ++
      (Ds.filter (fun s => !(decide (s = i)))) ++ (Ls ++ [i])).Nodup := by
  obtain ⟨hMs, hDs, hLs, hMD, hML, hDL⟩ := nodup_triple h
  have hiL : i ∉ Ls := hML hi
  refine nodup_triple_mk (hMs.sublist (List.filter_sublist Ms))
    (hDs.sublist (List.filter_sublist Ds)) ?_ ?_ ?_ ?_
  · exact (List.perm_append_singleton i Ls).symm.nodup
      (List.nodup_cons.mpr ⟨hiL, hLs⟩)
  · intro a ha hb
    exact hMD (mem_filter_ne.mp ha).1 (mem_filter_ne.mp hb).1
  · intro a ha hc
    obtain ⟨haM, hane⟩ := mem_filter_ne.mp ha
    rcases List.mem_append.mp hc with hc' | hc'
    · exact hML haM hc'
    · simp at hc'
      exact hane hc'
  · intro a hb hc
    obtain ⟨haD, hane⟩ := mem_filter_ne.mp hb
    rcases List.mem_append.mp hc with hc' | hc'
    · exact hDL haD hc'
    · simp at hc'
      exact hane hc'

theorem nodup_retry_move_ids {Ms Ds Ls : List String} {i : String}
    (h : (Ms ++ Ds ++ Ls).Nodup) (hi : i ∈ Ls) :
    ((Ms ++ [i]) ++ Ds ++ (Ls.eraseP (fun s => decide (s = i)))).Nodup := by
  obtain ⟨hMs, hDs, hLs, hMD, hML, hDL⟩ := nodup_triple h
  have hiM : i ∉ Ms := fun hm => hML hm hi
  have hiD : i ∉ Ds := fun hd => hDL hd hi
  have hiL' : i ∉ Ls.eraseP (fun s => decide (s = i)) := not_mem_eraseP_self hLs i
  have hsubL : ∀ a ∈ Ls.eraseP (fun s => decide (s = i)), a ∈ Ls :=
    fun a ha => (List.eraseP_sublist Ls).subset ha
  refine nodup_triple_mk ?_ hDs (hLs.sublist (List.eraseP_sublist Ls)) ?_ ?_ ?_
  · exact (List.perm_append_singleton i Ms).symm.nodup
      (List.nodup_cons.mpr ⟨hiM, hMs⟩)
  · intro a ha hb
    rcases List.mem_append.mp ha with ha' | ha'
    · exact hMD ha' hb
    · simp at ha'
      subst ha'
      exact hiD hb
  · intro a ha hc
    rcases List.mem_append.mp ha with ha' | ha'
    · exact hML ha' (hsubL a hc)
    · simp at ha'
      subst ha'
      exact hiL' hc
  · intro a hb hc
    exact hDL hb (hsubL a hc)

theorem failedBase_id {T : Type} (m : Message T) (reason : Option String) (now : Nat) :
    (failedBase m reason now).id = m.id :=
  rfl

theorem failedRetry_id {T : Type} (m : Message T) (reason : Option String)
    (now rd : Nat) : (failedRetry m reason now rd).id = m.id :=
  rfl

theorem failedDead_id {T : Type} (m : Message T) (reason : Option String) (now : Nat) :
    (failedDead m reason now).id = m.id :=
  rfl

theorem resetDeadLetter_id {T : Type} (m : Message T) (now : Nat) :
    (resetDeadLetter m now).id = m.id :=
  rfl

theorem setMessage_messages {T : Type} (q : AdvancedQueue T) (i : String)
    (m' : Message T) :
    (q.setMessage i m').messages = q.messages.map (fun x => if x.id = i then m' else x) :=
  rfl

theorem setMessage_delayed {T : Type} (q : AdvancedQueue T) (i : String)
    (m' : Message T) :
    (q.setMessage i m').delayedMessages =
      q.delayedMessages.map (fun x => if x.id = i then m' else x) :=
  rfl

theorem setMessage_dead {T : Type} (q : AdvancedQueue T) (i : String)
    (m' : Message T) :
    (q.setMessage i m').deadLetterMessages =
      q.deadLetterMessages.map (fun x => if x.id = i then m' else x) :=
  rfl

theorem failQ1_messages {T : Type} (q : AdvancedQueue T) (i : String) (m : Message T)
    (reason : Option String) (now : Nat) :
    (failQ1 q i m reason now).messages =
      (q.setMessage i (failedBase m reason now)).messages :=
  rfl

theorem failQ1_delayed {T : Type} (q : AdvancedQueue T) (i : String) (m : Message T)
    (reason : Option String) (now : Nat) :
    (failQ1 q i m reason now).delayedMessages =
      (q.setMessage i (failedBase m reason now)).delayedMessages :=
  rfl

theorem failQ1_dead {T : Type} (q : AdvancedQueue T) (i : String) (m : Message T)
    (reason : Option String) (now : Nat) :
    (failQ1 q i m reason now).deadLetterMessages =
      (q.setMessage i (failedBase m reason now)).deadLetterMessages :=
  rfl

theorem nodupIds_procUpdate {T : Type} (q : AdvancedQueue T) (p : List String) :
    NodupIds { q with processingMessages := p } ↔ NodupIds q :=
  Iff.rfl

theorem nodupIds_setMessage {T : Type} {q : AdvancedQueue T} {i : String}
    {m' : Message T} (hm : m'.id = i) (h : NodupIds q) :
    NodupIds (q.setMessage i m') := by
  unfold NodupIds at h ⊢
  rw [idsAll_setMessage q i m' hm]
  exact h

theorem nodupIds_insert_ready {T : Type} {q : AdvancedQueue T} {msg : Message T}
    (h : NodupIds q) (hid : msg.id ∉ idsOf q.getAllMessages) :
    NodupIds { q with messages := sortMessages (q.messages ++ [msg]) } := by
  unfold NodupIds at h ⊢
  rw [ids_all_eq] at h
  rw [ids_all_eq] at hid
  rw [ids_all_eq]
  show (idsOf (sortMessages (q.messages ++ [msg])) ++ idsOf q.delayedMessages ++
    idsOf q.deadLetterMessages).Nodup
  have hp : List.Perm (idsOf (sortMessages (q.messages ++ [msg])))
      (idsOf q.messages ++ [msg.id]) :=
    (idsOf_sortMessages _).trans (by rw [idsOf_append]; exact List.Perm.refl _)
  have hfull : List.Perm
      (idsOf (sortMessages (q.messages ++ [msg])) ++ idsOf q.delayedMessages ++
        idsOf q.deadLetterMessages)
      ((idsOf q.messages ++ [msg.id]) ++ idsOf q.delayedMessages ++
        idsOf q.deadLetterMessages) :=
    (hp.append_right _).append_right _
  exact hfull.symm.nodup (nodup_insert_ready_ids h hid)

theorem nodupIds_insert_delayed {T : Type} {q : AdvancedQueue T} {msg : Message T}
    (h : NodupIds q) (hid : msg.id ∉ idsOf q.getAllMessages) :
    NodupIds { q with delayedMessages := sortMessages (q.delayedMessages ++ [msg]) } := by
  unfold NodupIds at h ⊢
  rw [ids_all_eq] at h
  rw [ids_all_eq] at hid
  rw [ids_all_eq]
  show (idsOf q.messages ++ idsOf (sortMessages (q.delayedMessages ++ [msg])) ++
    idsOf q.deadLetterMessages).Nodup
  have hp : List.Perm (idsOf (sortMessages (q.delayedMessages ++ [msg])))
      (idsOf q.delayedMessages ++ [msg.id]) :=
    (idsOf_sortMessages _).trans (by rw [idsOf_append]; exact List.Perm.refl _)
  have hfull : List.Perm
      (idsOf q.messages ++ idsOf (sortMessages (q.delayedMessages ++ [msg])) ++
        idsOf q.deadLetterMessages)
      (idsOf q.messages ++ (idsOf q.delayedMessages ++ [msg.id]) ++
        idsOf q.deadLetterMessages) :=
    ((hp.append_left _).append_right _)
  exact hfull.symm.nodup (nodup_insert_delayed_ids h hid)

theorem nodupIds_enqueue {T : Type} {q : AdvancedQueue T} {data : T}
    {opts : EnqueueOptions} {now : Nat} {genId : String} (h : NodupIds q)
    (hfresh : strTruthy opts.id = false →
      effectiveId opts genId ∉ idsOf q.getAllMessages) :
    NodupIds (q.enqueue data opts now genId).2 := by
  by_cases hs : strTruthy opts.id = true
  · cases hfind : q.findMessageById (effectiveId opts genId) with
    | some existing => rw [enqueue_existing hs hfind]; exact h
    | none =>
      have hid : effectiveId opts genId ∉ idsOf q.getAllMessages := by
        intro hmem
        obtain ⟨m, hm, hmid⟩ := mem_idsOf.mp hmem
        exact findMessageById_eq_none.mp hfind m hm hmid
      cases hd : delayPositive opts.delay with
      | true =>
        rw [enqueue_not_found_delayed (fun _ => hfind) hd]
        exact nodupIds_insert_delayed h hid
      | false =>
        rw [enqueue_not_found_ready (fun _ => hfind) hd]
        exact nodupIds_insert_ready h hid
  · have hs' : strTruthy opts.id = false := by simpa using hs
    have hid := hfresh hs'
    cases hd : delayPositive opts.delay with
    | true =>
      rw [enqueue_not_found_delayed (fun hh => absurd hh hs) hd]
      exact nodupIds_insert_delayed h hid
    | false =>
      rw [enqueue_not_found_ready (fun hh => absurd hh hs) hd]
      exact nodupIds_insert_ready h hid

theorem nodupIds_dequeue {T : Type} {q : AdvancedQueue T} {now : Nat}
    (h : NodupIds q) : NodupIds (q.dequeue now).2 := by
  simp only [AdvancedQueue.dequeue]
  have h1 : NodupIds (q.checkDelayedMessages now) := nodupIds_checkDelayed now h
  cases hfind : List.find? isPending (q.checkDelayedMessages now).messages with
  | none => exact h1
  | some m0 => exact (nodupIds_procUpdate _ _).mpr (nodupIds_setMessage rfl h1)

theorem nodupIds_complete {T : Type} {q : AdvancedQueue T} {i : String} {now : Nat}
    (h : NodupIds q) : NodupIds (q.complete i now).2 := by
  simp only [AdvancedQueue.complete]
  cases hfind : q.findMessageById i with
  | none => exact h
  | some m =>
    have hmid := (findMessageById_mem hfind).2
    exact (nodupIds_procUpdate _ _).mpr (nodupIds_setMessage (by simp [hmid]) h)

theorem nodupIds_cancelDelayed {T : Type} {q : AdvancedQueue T} {i : String}
    (h : NodupIds q) : NodupIds (q.cancelDelayed i).2 := by
  unfold AdvancedQueue.cancelDelayed
  split
  · unfold NodupIds at h ⊢
    rw [ids_all_eq] at h
    rw [ids_all_eq]
    show (idsOf q.messages ++ idsOf (q.delayedMessages.eraseP (idIs i)) ++
      idsOf q.deadLetterMessages).Nodup
    rw [idsOf_eraseP]
    exact h.sublist (((List.Sublist.refl _).append
      (List.eraseP_sublist _)).append (List.Sublist.refl _))
  · exact h

theorem failQ3_messages {T : Type} (q : AdvancedQueue T) (i : String) (m : Message T)
    (reason : Option String) (now : Nat) :
    (failQ3 q i m reason now).messages =
      ((failQ1 q i m reason now).setMessage i
        (failedRetry m reason now q.options.retryDelay)).messages.filter
          (fun x => !(idIs i x)) :=
  rfl

theorem failQ3_delayed {T : Type} (q : AdvancedQueue T) (i : String) (m : Message T)
    (reason : Option String) (now : Nat) :
    (failQ3 q i m reason now).delayedMessages =
      sortMessages (((failQ1 q i m reason now).setMessage i
        (failedRetry m reason now q.options.retryDelay)).delayedMessages ++
          [failedRetry m reason now q.options.retryDelay]) :=
  rfl

theorem failQ3_dead {T : Type} (q : AdvancedQueue T) (i : String) (m : Message T)
    (reason : Option String) (now : Nat) :
    (failQ3 q i m reason now).deadLetterMessages =
      ((failQ1 q i m reason now).setMessage i
        (failedRetry m reason now q.options.retryDelay)).deadLetterMessages :=
  rfl

theorem failQDead_messages {T : Type} (q : AdvancedQueue T) (i : String)
    (m : Message T) (reason : Option String) (now : Nat) :
    (failQDead q i m reason now).messages =
      ((failQ1 q i m reason now).setMessage i
        (failedDead m reason now)).messages.filter (fun x => !(idIs i x)) :=
  rfl

theorem failQDead_delayed {T : Type} (q : AdvancedQueue T) (i : String)
    (m : Message T) (reason : Option String) (now : Nat) :
    (failQDead q i m reason now).delayedMessages =
      ((failQ1 q i m reason now).setMessage i
        (failedDead m reason now)).delayedMessages.filter (fun x => !(idIs i x)) :=
  rfl

theorem failQDead_dead {T : Type} (q : AdvancedQueue T) (i : String) (m : Message T)
    (reason : Option String) (now : Nat) :
    (failQDead q i m reason now).deadLetterMessages =
      ((failQ1 q i m reason now).setMessage i
        (failedDead m reason now)).deadLetterMessages ++ [failedDead m reason now] :=
  rfl

theorem nodupIds_failQ1 {T : Type} {q : AdvancedQueue T} {i : String} {m : Message T}
    {reason : Option String} {now : Nat} (hmid : m.id = i) (h : NodupIds q) :
    NodupIds (failQ1 q i m reason now) := by
  unfold NodupIds at h ⊢
  rw [getAllMessages_failQ1,
    idsAll_setMessage q i (failedBase m reason now) (by rw [failedBase_id]; exact hmid)]
  exact h

theorem nodupIds_failQ3 {T : Type} {q : AdvancedQueue T} {i : String} {m : Message T}
    {reason : Option String} {now : Nat} (hmid : m.id = i) (h : NodupIds q)
    (hi : i ∈ idsOf q.messages) : NodupIds (failQ3 q i m reason now) := by
  have hb : (failedBase m reason now).id = i := by rw [failedBase_id]; exact hmid
  have hr : (failedRetry m reason now q.options.retryDelay).id = i := by
    rw [failedRetry_id]; exact hmid
  have hMs : idsOf ((failQ1 q i m reason now).setMessage i
      (failedRetry m reason now q.options.retryDelay)).messages = idsOf q.messages := by
    rw [setMessage_messages, idsOf_setFn _ _ _ hr, failQ1_messages,
      setMessage_messages, idsOf_setFn _ _ _ hb]
  have hDs : idsOf ((failQ1 q i m reason now).setMessage i
      (failedRetry m reason now q.options.retryDelay)).delayedMessages =
      idsOf q.delayedMessages := by
    rw [setMessage_delayed, idsOf_setFn _ _ _ hr, failQ1_delayed,
      setMessage_delayed, idsOf_setFn _ _ _ hb]
  have hLs : idsOf ((failQ1 q i m reason now).setMessage i
      (failedRetry m reason now q.options.retryDelay)).deadLetterMessages =
      idsOf q.deadLetterMessages := by
    rw [setMessage_dead, idsOf_setFn _ _ _ hr, failQ1_dead,
      setMessage_dead, idsOf_setFn _ _ _ hb]
  unfold NodupIds at h ⊢
  rw [ids_all_eq] at h
  rw [ids_all_eq, failQ3_messages, failQ3_delayed, failQ3_dead,
    idsOf_filter_not_id, hMs, hLs]
  have hDperm : List.Perm
      (idsOf (sortMessages (((failQ1 q i m reason now).setMessage i
        (failedRetry m reason now q.options.retryDelay)).delayedMessages ++
          [failedRetry m reason now q.options.retryDelay])))
      (idsOf q.delayedMessages ++ [i]) := by
    refine (idsOf_sortMessages _).trans ?_
    rw [idsOf_append, hDs]
    have : idsOf [failedRetry m reason now q.options.retryDelay] = [i] := by
      simp [idsOf, hr]
    rw [this]
  have hfull : List.Perm
      ((idsOf q.messages).filter (fun s => !(decide (s = i))) ++
        idsOf (sortMessages (((failQ1 q i m reason now).setMessage i
          (failedRetry m reason now q.options.retryDelay)).delayedMessages ++
            [failedRetry m reason now q.options.retryDelay])) ++
        idsOf q.deadLetterMessages)
      ((idsOf q.messages).filter (fun s => !(decide (s = i))) ++
        (idsOf q.delayedMessages ++ [i]) ++ idsOf q.deadLetterMessages) :=
    (hDperm.append_left _).append_right _
  exact hfull.symm.nodup (nodup_fail_retry_ids h hi)

theorem nodupIds_failQDead {T : Type} {q : AdvancedQueue T} {i : String}
    {m : Message T} {reason : Option String} {now : Nat} (hmid : m.id = i)
    (h : NodupIds q) (hi : i ∈ idsOf q.messages) :
    NodupIds (failQDead q i m reason now) := by
  have hb : (failedBase m reason now).id = i := by rw [failedBase_id]; exact hmid
  have hr : (failedDead m reason now).id = i := by rw [failedDead_id]; exact hmid
  have hMs : idsOf ((failQ1 q i m reason now).setMessage i
      (failedDead m reason now)).messages = idsOf q.messages := by
    rw [setMessage_messages, idsOf_setFn _ _ _ hr, failQ1_messages,
      setMessage_messages, idsOf_setFn _ _ _ hb]
  have hDs : idsOf ((failQ1 q i m reason now).setMessage i
      (failedDead m reason now)).delayedMessages = idsOf q.delayedMessages := by
    rw [setMessage_delayed, idsOf_setFn _ _ _ hr, failQ1_delayed,
      setMessage_delayed, idsOf_setFn _ _ _ hb]
  have hLs : idsOf ((failQ1 q i m reason now).setMessage i
      (failedDead m reason now)).deadLetterMessages = idsOf q.deadLetterMessages := by
    rw [setMessage_dead, idsOf_setFn _ _ _ hr, failQ1_dead,
      setMessage_dead, idsOf_setFn _ _ _ hb]
  unfold NodupIds at h ⊢
  rw [ids_all_eq] at h
  rw [ids_all_eq, failQDead_messages, failQDead_delayed, failQDead_dead,
    idsOf_filter_not_id, idsOf_filter_not_id, idsOf_append, hMs, hDs, hLs]
  have : idsOf [failedDead m reason now] = [i] := by simp [idsOf, hr]
  rw [this]
  exact nodup_fail_dead_ids h hi

theorem nodupIds_fail {T : Type} {q : AdvancedQueue T} {i : String}
    {reason : Option String} {now : Nat} (h : NodupIds q)
    (hin : q.messages.any (idIs i) = true) : NodupIds (q.fail i reason now).2 := by
  have hi : i ∈ idsOf q.messages := by
    obtain ⟨x, hx, hxi⟩ := List.any_eq_true.mp hin
    exact mem_idsOf.mpr ⟨x, hx, by simpa [idIs] using hxi⟩
  cases hfind : q.findMessageById i with
  | none => rw [fail_eq_none hfind]; exact h
  | some m =>
    have hmid := (findMessageById_mem hfind).2
    by_cases hlt : m.processingAttempts + 1 < q.options.maxRetries
    · rw [fail_eq_retry hfind hlt]
      by_cases hac : q.options.autoCheckDelayed = true
      · simp only [hac, if_true]
        exact nodupIds_checkDelayed now (nodupIds_failQ3 hmid h hi)
      · simp only [hac, if_false]
        exact nodupIds_failQ3 hmid h hi
    · cases hdl : q.options.deadLetterEnabled with
      | true =>
        rw [fail_eq_dead hfind hlt hdl]
        exact nodupIds_failQDead hmid h hi
      | false =>
        rw [fail_eq_parked hfind hlt hdl]
        exact nodupIds_failQ1 hmid h

theorem retryDeadLetter_eq_none {T : Type} {q : AdvancedQueue T} {i : String}
    {now : Nat} (hfind : q.deadLetterMessages.find? (idIs i) = none) :
    q.retryDeadLetter i now = (false, q) := by
  unfold AdvancedQueue.retryDeadLetter
  rw [hfind]

theorem retryDeadLetter_eq_found {T : Type} {q : AdvancedQueue T} {i : String}
    {now : Nat} {m : Message T} (hfind : q.deadLetterMessages.find? (idIs i) = some m) :
    q.retryDeadLetter i now = (true, retryQ q i m now) := by
  unfold AdvancedQueue.retryDeadLetter
  rw [hfind]

theorem retryQ_messages {T : Type} (q : AdvancedQueue T) (i : String) (m : Message T)
    (now : Nat) :
    (retryQ q i m now).messages = sortMessages ((AdvancedQueue.setMessage
      { q with deadLetterMessages := q.deadLetterMessages.eraseP (idIs i) }
      i (resetDeadLetter m now)).messages ++ [resetDeadLetter m now]) :=
  rfl

theorem retryQ_delayed {T : Type} (q : AdvancedQueue T) (i : String) (m : Message T)
    (now : Nat) :
    (retryQ q i m now).delayedMessages = (AdvancedQueue.setMessage
      { q with deadLetterMessages := q.deadLetterMessages.eraseP (idIs i) }
      i (resetDeadLetter m now)).delayedMessages :=
  rfl

theorem retryQ_dead {T : Type} (q : AdvancedQueue T) (i : String) (m : Message T)
    (now : Nat) :
    (retryQ q i m now).deadLetterMessages = (AdvancedQueue.setMessage
      { q with deadLetterMessages := q.deadLetterMessages.eraseP (idIs i) }
      i (resetDeadLetter m now)).deadLetterMessages :=
  rfl

theorem nodupIds_retryDeadLetter {T : Type} {q : AdvancedQueue T} {i : String}
    {now : Nat} (h : NodupIds q) : NodupIds (q.retryDeadLetter i now).2 := by
  cases hfind : q.deadLetterMessages.find? (idIs i) with
  | none => rw [retryDeadLetter_eq_none hfind]; exact h
  | some m =>
    rw [retryDeadLetter_eq_found hfind]
    have hmid : m.id = i := by simpa [idIs] using List.find?_some hfind
    have hi : i ∈ idsOf q.deadLetterMessages :=
      mem_idsOf.mpr ⟨m, List.mem_of_find?_eq_some hfind, hmid⟩
    have hrid : (resetDeadLetter m now).id = i := by rw [resetDeadLetter_id]; exact hmid
    have hMs : idsOf (AdvancedQueue.setMessage
        { q with deadLetterMessages := q.deadLetterMessages.eraseP (idIs i) }
        i (resetDeadLetter m now)).messages = idsOf q.messages := by
      rw [setMessage_messages, idsOf_setFn _ _ _ hrid]
    have hDs : idsOf (AdvancedQueue.setMessage
        { q with deadLetterMessages := q.deadLetterMessages.eraseP (idIs i) }
        i (resetDeadLetter m now)).delayedMessages = idsOf q.delayedMessages := by
      rw [setMessage_delayed, idsOf_setFn _ _ _ hrid]
    have hLs : idsOf (AdvancedQueue.setMessage
        { q with deadLetterMessages := q.deadLetterMessages.eraseP (idIs i) }
        i (resetDeadLetter m now)).deadLetterMessages =
        (idsOf q.deadLetterMessages).eraseP (fun s => decide (s = i)) := by
      rw [setMessage_dead, idsOf_setFn _ _ _ hrid]
      exact idsOf_eraseP _ _
    unfold NodupIds at h ⊢
    rw [ids_all_eq] at h
    rw [ids_all_eq, retryQ_messages, retryQ_delayed, retryQ_dead, hDs, hLs]
    have hMperm : List.Perm
        (idsOf (sortMessages ((AdvancedQueue.setMessage
          { q with deadLetterMessages := q.deadLetterMessages.eraseP (idIs i) }
          i (resetDeadLetter m now)).messages ++ [resetDeadLetter m now])))
        (idsOf q.messages ++ [i]) := by
      refine (idsOf_sortMessages _).trans ?_
      rw [idsOf_append, hMs]
      have : idsOf [resetDeadLetter m now] = [i] := by simp [idsOf, hrid]
      rw [this]
    have hfull : List.Perm
        (idsOf (sortMessages ((AdvancedQueue.setMessage
          { q with deadLetterMessages := q.deadLetterMessages.eraseP (idIs i) }
          i (resetDeadLetter m now)).messages ++ [resetDeadLetter m now])) ++
          idsOf q.delayedMessages ++
          (idsOf q.deadLetterMessages).eraseP (fun s => decide (s = i)))
        ((idsOf q.messages ++ [i]) ++ idsOf q.delayedMessages ++
          (idsOf q.deadLetterMessages).eraseP (fun s => decide (s = i))) :=
      (hMperm.append_right _).append_right _
    exact hfull.symm.nodup (nodup_retry_move_ids h hi)

theorem nodupIds_clear {T : Type} (q : AdvancedQueue T) : NodupIds q.clear := by
  unfold NodupIds
  simp [AdvancedQueue.clear, AdvancedQueue.getAllMessages, idsOf]

/-- In every state reachable when `fail` is only applied to messages residing
in the ready collection (the normal dequeue-then-fail flow), each id occurs
in at most one collection and at most once there. -/
theorem nodupIds_of_reaches {T : Type} {q : AdvancedQueue T}
    (h : Reaches true q) : NodupIds q := by
  induction h with
  | init o =>
    unfold NodupIds
    simp [AdvancedQueue.init, AdvancedQueue.getAllMessages, idsOf]
  | enqueue data opts now genId hq hfresh ih => exact nodupIds_enqueue ih hfresh
  | peek now hq ih => exact nodupIds_checkDelayed now ih
  | dequeue now hq ih => exact nodupIds_dequeue ih
  | complete i now hq ih => exact nodupIds_complete ih
  | fail i reason now hq hsafe ih => exact nodupIds_fail ih (hsafe rfl)
  | cancelDelayed i hq ih => exact nodupIds_cancelDelayed ih
  | retryDeadLetter i now hq ih => exact nodupIds_retryDeadLetter ih
  | sweep now hq ih => exact nodupIds_checkDelayed now ih
  | clear hq ih => exact nodupIds_clear _

/-! ### Helper facts used by the claim theorems -/

theorem sortMessages_length {T : Type} (l : List (Message T)) :
    (sortMessages l).length = l.length :=
  (sortMessages_perm l).length_eq

theorem effectiveId_some {p d : Option Int} {X : String} (hX : X ≠ "")
    (genId : String) : effectiveId ⟨p, d, some X⟩ genId = X := by
  simp [effectiveId, hX]

theorem strTruthy_some {X : String} (hX : X ≠ "") : strTruthy (some X) = true := by
  simp [strTruthy, hX]

theorem elapsedB_failedRetry_false {T : Type} (m : Message T) (reason : Option String)
    (now rd : Nat) (hrd : 0 < rd) :
    elapsedB now (failedRetry m reason now rd) = false := by
  simp only [elapsedB, failedRetry]
  simp only [Bool.and_eq_false_iff, decide_eq_false_iff_not]
  omega

theorem failQ3_mem_delayed {T : Type} (q : AdvancedQueue T) (i : String)
    (m : Message T) (reason : Option String) (now : Nat) :
    failedRetry m reason now q.options.retryDelay ∈
      (failQ3 q i m reason now).delayedMessages := by
  rw [failQ3_delayed]
  exact mem_sortMessages.mpr (List.mem_append.mpr (Or.inr (by simp)))

theorem failQDead_mem_dead {T : Type} (q : AdvancedQueue T) (i : String)
    (m : Message T) (reason : Option String) (now : Nat) :
    failedDead m reason now ∈ (failQDead q i m reason now).deadLetterMessages := by
  rw [failQDead_dead]
  exact List.mem_append.mpr (Or.inr (by simp))

theorem mem_checkDelayed_delayed_of_not_elapsed {T : Type} {q : AdvancedQueue T}
    {now : Nat} {x : Message T} (hx : x ∈ q.delayedMessages)
    (he : elapsedB now x = false) :
    x ∈ (q.checkDelayedMessages now).delayedMessages := by
  rw [checkDelayed_delayed_eq]
  exact List.mem_filter.mpr ⟨hx, by rw [he]; rfl⟩

theorem mem_checkDelayed_messages_of_elapsed {T : Type} {q : AdvancedQueue T}
    {now : Nat} {x : Message T} (hx : x ∈ q.delayedMessages)
    (he : elapsedB now x = true) :
    promoteMsg now x ∈ (q.checkDelayedMessages now).messages := by
  rw [checkDelayed_messages_eq]
  have hxr : promoteMsg now x ∈
      (q.delayedMessages.filter (elapsedB now)).map (promoteMsg now) :=
    List.mem_map_of_mem _ (List.mem_filter.mpr ⟨hx, he⟩)
  have hne : ((q.delayedMessages.filter (elapsedB now)).map (promoteMsg now)).isEmpty
      = false := by
    cases hl : (q.delayedMessages.filter (elapsedB now)).map (promoteMsg now) with
    | nil => rw [hl] at hxr; simp at hxr
    | cons a as => simp
  rw [hne]
  simp only [Bool.false_eq_true, if_false]
  exact mem_sortMessages.mpr (List.mem_append.mpr (Or.inr hxr))

/-! ### Claim C1 -/

/-- **C1** (amended): for a message found in any collection, `fail` returns
true and rewrites it to `failedRetry` / `failedDead` / `failedBase` — each
with the attempt counter incremented and `failureReason` set.  Below
`maxRetries` the record `failedRetry` (status Delayed,
`delayUntil = now + retryDelay`) is pushed into the delayed collection and
stays there — unless `autoCheckDelayed` is set and the code's elapsed test
already fires on the fresh `delayUntil` (which happens exactly when
`retryDelay = 0` and `now ≠ 0`), in which case the immediate sweep promotes
it straight back to Pending in the ready collection.  At or above
`maxRetries` with dead-lettering enabled the record `failedDead` (status
DeadLetter) ends in the dead-letter collection.  At or above `maxRetries`
with dead-lettering disabled no entry moves between collections and the
message is left, with status Failed, in whichever collection currently holds
it (the ready collection under the normal processing flow).  `fail` returns
false for an id found in no collection. -/
theorem C1_fail_transitions {T : Type} (q : AdvancedQueue T) (i : String)
    (reason : Option String) (now : Nat) (m : Message T)
    (hfind : q.findMessageById i = some m) :
    (q.fail i reason now).1 = true ∧
    (m.processingAttempts + 1 < q.options.maxRetries →
      (q.options.autoCheckDelayed = false ∨
        elapsedB now (failedRetry m reason now q.options.retryDelay) = false) →
      ∃ e ∈ (q.fail i reason now).2.delayedMessages,
        e = failedRetry m reason now q.options.retryDelay) ∧
    (m.processingAttempts + 1 < q.options.maxRetries →
      q.options.autoCheckDelayed = true →
      elapsedB now (failedRetry m reason now q.options.retryDelay) = true →
      ∃ e ∈ (q.fail i reason now).2.messages,
        e = promoteMsg now (failedRetry m reason now q.options.retryDelay)) ∧
    (¬(m.processingAttempts + 1 < q.options.maxRetries) →
      q.options.deadLetterEnabled = true →
      ∃ e ∈ (q.fail i reason now).2.deadLetterMessages, e = failedDead m reason now) ∧
    (¬(m.processingAttempts + 1 < q.options.maxRetries) →
      q.options.deadLetterEnabled = false →
      idsOf (q.fail i reason now).2.messages = idsOf q.messages ∧
      idsOf (q.fail i reason now).2.delayedMessages = idsOf q.delayedMessages ∧
      idsOf (q.fail i reason now).2.deadLetterMessages = idsOf q.deadLetterMessages ∧
      (m ∈ q.messages → failedBase m reason now ∈ (q.fail i reason now).2.messages) ∧
      (m ∈ q.delayedMessages →
        failedBase m reason now ∈ (q.fail i reason now).2.delayedMessages) ∧
      (m ∈ q.deadLetterMessages →
        failedBase m reason now ∈ (q.fail i reason now).2.deadLetterMessages)) ∧
    (∀ i', q.findMessageById i' = none → q.fail i' reason now = (false, q)) := by
  have hmid := (findMessageById_mem hfind).2
  refine ⟨?_, ?_, ?_, ?_, ?_, fun i' hnone => fail_eq_none hnone⟩
  · by_cases hlt : m.processingAttempts + 1 < q.options.maxRetries
    · rw [fail_eq_retry hfind hlt]
    · cases hdl : q.options.deadLetterEnabled with
      | true => rw [fail_eq_dead hfind hlt hdl]
      | false => rw [fail_eq_parked hfind hlt hdl]
  · intro hlt hor
    rw [fail_eq_retry hfind hlt]
    by_cases hac : q.options.autoCheckDelayed = true
    · simp only [hac, if_true]
      rcases hor with h | h
      · exact absurd hac (by simp [h])
      · exact ⟨_, mem_checkDelayed_delayed_of_not_elapsed
          (failQ3_mem_delayed q i m reason now) h, rfl⟩
    · rw [if_neg hac]
      exact ⟨_, failQ3_mem_delayed q i m reason now, rfl⟩
  · intro hlt hac he
    rw [fail_eq_retry hfind hlt]
    simp only [hac, if_true]
    exact ⟨_, mem_checkDelayed_messages_of_elapsed
      (failQ3_mem_delayed q i m reason now) he, rfl⟩
  · intro hlt hdl
    rw [fail_eq_dead hfind hlt hdl]
    exact ⟨_, failQDead_mem_dead q i m reason now, rfl⟩
  · intro hlt hdl
    rw [fail_eq_parked hfind hlt hdl]
    have hb : (failedBase m reason now).id = i := by rw [failedBase_id]; exact hmid
    refine ⟨?_, ?_, ?_, ?_, ?_, ?_⟩
    · rw [failQ1_messages, setMessage_messages, idsOf_setFn _ _ _ hb]
    · rw [failQ1_delayed, setMessage_delayed, idsOf_setFn _ _ _ hb]
    · rw [failQ1_dead, setMessage_dead, idsOf_setFn _ _ _ hb]
    · intro hm
      rw [failQ1_messages, setMessage_messages]
      exact List.mem_map.mpr ⟨m, hm, by simp [hmid]⟩
    · intro hm
      rw [failQ1_delayed, setMessage_delayed]
      exact List.mem_map.mpr ⟨m, hm, by simp [hmid]⟩
    · intro hm
      rw [failQ1_dead, setMessage_dead]
      exact List.mem_map.mpr ⟨m, hm, by simp [hmid]⟩

def c1Options : QueueOptions :=
  { DEFAULT_QUEUE_OPTIONS with maxRetries := 1, deadLetterEnabled := false }

def c1Queue : AdvancedQueue Nat :=
  ((AdvancedQueue.init c1Options).enqueue 0 ⟨none, some 100, some "a"⟩ 0 "g").2

def c1OptionsB : QueueOptions :=
  { DEFAULT_QUEUE_OPTIONS with retryDelay := 0, autoCheckDelayed := true }

def c1QueueB : AdvancedQueue Nat :=
  ((AdvancedQueue.init c1OptionsB).enqueue 0 ⟨none, none, some "p"⟩ 0 "g").2

/-- **C1** (counterexample): two configurations refute the claim.  First,
with `maxRetries = 1` and dead-lettering disabled, failing a message that
sits in the delayed collection exhausts its retries and leaves it, status
Failed, in the *delayed* collection — the ready collection is empty,
contradicting "the message is left with status Failed inside the ready
collection".  Second, with `retryDelay = 0` and `autoCheckDelayed` set,
failing a message below `maxRetries` does *not* leave it Delayed in the
delayed collection: the immediate sweep re-promotes it, so it ends Pending
in the ready collection and the delayed collection is empty, contradicting
"the message ends with status Delayed and delayUntil = now + retryDelay in
the delayed collection". -/
theorem C1_counterexample :
    ((c1Queue.fail "a" (some "boom") 5).1 = true ∧
      (c1Queue.fail "a" (some "boom") 5).2.messages = [] ∧
      ∃ e ∈ (c1Queue.fail "a" (some "boom") 5).2.delayedMessages,
        e.id = "a" ∧ e.status = MessageStatus.failed ∧ e.processingAttempts = 1) ∧
    ((c1QueueB.fail "p" (some "late") 5).1 = true ∧
      (c1QueueB.fail "p" (some "late") 5).2.delayedMessages = [] ∧
      ∃ e ∈ (c1QueueB.fail "p" (some "late") 5).2.messages,
        e.id = "p" ∧ e.status = MessageStatus.pending ∧
        e.processingAttempts = 1 ∧ e.failureReason = some "late") := by
  decide

def c1WitnessQueue : AdvancedQueue Nat :=
  ((AdvancedQueue.init DEFAULT_QUEUE_OPTIONS).enqueue 7 ⟨none, none, some "p"⟩ 0 "g").2

def c1WitnessMsg : Message Nat :=
  { id := "p", data := 7, status := MessageStatus.pending, priority := 0
    createdAt := 0, updatedAt := 0, delayUntil := none, processingStartedAt := none
    processingAttempts := 0, failureReason := none }

/-- **C1** (witness): the theorem applied to a concrete one-message queue. -/
theorem C1_witness :
    ∃ e ∈ (c1WitnessQueue.fail "p" (some "e") 1).2.delayedMessages,
      e = failedRetry c1WitnessMsg (some "e") 1 1000 := by
  have h := C1_fail_transitions c1WitnessQueue "p" (some "e") 1 c1WitnessMsg
    (by decide)
  exact h.2.1 (by decide) (Or.inl (by decide))

/-! ### Claim C10 -/

/-- **C10**: `fail` does not require the Processing state: for a message
found in any collection with any status, it returns true and some entry with
that id has its attempt counter incremented by one and `failureReason` set;
when retries are exhausted and dead-lettering is enabled that entry has
status DeadLetter. -/
theorem C10_fail_any_status {T : Type} (q : AdvancedQueue T) (i : String)
    (reason : Option String) (now : Nat) (m : Message T)
    (hfind : q.findMessageById i = some m) :
    (q.fail i reason now).1 = true ∧
    ∃ e ∈ (q.fail i reason now).2.getAllMessages,
      e.id = m.id ∧ e.processingAttempts = m.processingAttempts + 1 ∧
      e.failureReason = reason ∧
      (¬(m.processingAttempts + 1 < q.options.maxRetries) →
        q.options.deadLetterEnabled = true → e.status = MessageStatus.dead_letter) := by
  have hmid := (findMessageById_mem hfind).2
  by_cases hlt : m.processingAttempts + 1 < q.options.maxRetries
  · rw [fail_eq_retry hfind hlt]
    by_cases hac : q.options.autoCheckDelayed = true
    · simp only [hac, if_true]
      refine ⟨by trivial, ?_⟩
      cases he : elapsedB now (failedRetry m reason now q.options.retryDelay) with
      | false =>
        exact ⟨failedRetry m reason now q.options.retryDelay,
          mem_all_of_mem_delayed (mem_checkDelayed_delayed_of_not_elapsed
            (failQ3_mem_delayed q i m reason now) he),
          rfl, rfl, rfl, fun h _ => absurd hlt h⟩
      | true =>
        exact ⟨promoteMsg now (failedRetry m reason now q.options.retryDelay),
          mem_all_of_mem_messages (mem_checkDelayed_messages_of_elapsed
            (failQ3_mem_delayed q i m reason now) he),
          rfl, rfl, rfl, fun h _ => absurd hlt h⟩
    · simp only [hac, if_false]
      exact ⟨by trivial, failedRetry m reason now q.options.retryDelay,
        mem_all_of_mem_delayed (failQ3_mem_delayed q i m reason now),
        rfl, rfl, rfl, fun h _ => absurd hlt h⟩
  · cases hdl : q.options.deadLetterEnabled with
    | true =>
      rw [fail_eq_dead hfind hlt hdl]
      exact ⟨by trivial, failedDead m reason now,
        mem_all_of_mem_dead (failQDead_mem_dead q i m reason now),
        rfl, rfl, rfl, fun _ _ => rfl⟩
    | false =>
      rw [fail_eq_parked hfind hlt hdl]
      exact ⟨by trivial, failedBase m reason now,
        mem_failQ1 (findMessageById_mem hfind).1 hmid, rfl, rfl, rfl,
        fun _ h => absurd h (by simp)⟩

def c10Queue : AdvancedQueue Nat :=
  (((AdvancedQueue.init DEFAULT_QUEUE_OPTIONS).enqueue 7
    ⟨none, none, some "p"⟩ 0 "g").2.complete "p" 1).2

def c10Msg : Message Nat :=
  { id := "p", data := 7, status := MessageStatus.completed, priority := 0
    createdAt := 0, updatedAt := 1, delayUntil := none, processingStartedAt := none
    processingAttempts := 0, failureReason := none }

/-- **C10** (witness): `fail` succeeds on a message whose status is
Completed and which was never dequeued. -/
theorem C10_witness : (c10Queue.fail "p" none 2).1 = true :=
  (C10_fail_any_status c10Queue "p" none 2 c10Msg (by decide)).1

/-! ### Claim C2 -/

def scenarioQ : AdvancedQueue Nat :=
  ((((AdvancedQueue.init DEFAULT_QUEUE_OPTIONS).enqueue 0
    ⟨some 1, none, none⟩ 0 "a").2.enqueue 1
    ⟨some 10, none, none⟩ 1 "b").2.enqueue 2
    ⟨some 5, none, none⟩ 2 "c").2

theorem scenarioQ_reachable : Reaches false scenarioQ :=
  Reaches.enqueue 2 ⟨some 5, none, none⟩ 2 "c"
    (Reaches.enqueue 1 ⟨some 10, none, none⟩ 1 "b"
      (Reaches.enqueue 0 ⟨some 1, none, none⟩ 0 "a"
        (Reaches.init DEFAULT_QUEUE_OPTIONS) (fun _ => by decide))
      (fun _ => by decide))
    (fun _ => by decide)

/-- **C2**: in every reachable state, `peek` returns a currently-Pending
message ranking no later (priority descending, `createdAt` ascending) than
every Pending message, and `dequeue` selects such a message and returns it
marked Processing; non-Pending messages are never selected.  In particular,
enqueueing priorities 1, 10, 5 and dequeuing three times yields priorities
10, 5, 1. -/
theorem C2_dequeue_order {T : Type} (safe : Bool) (q : AdvancedQueue T)
    (hq : Reaches safe q) (now : Nat) :
    (∀ p, (q.peek now).1 = some p →
      p ∈ (q.checkDelayedMessages now).messages ∧
      p.status = MessageStatus.pending ∧
      ∀ m' ∈ (q.checkDelayedMessages now).messages,
        m'.status = MessageStatus.pending → MsgLe p m') ∧
    (∀ m, (q.dequeue now).1 = some m →
      ∃ m0 ∈ (q.checkDelayedMessages now).messages,
        m0.status = MessageStatus.pending ∧
        m = { m0 with
              status := MessageStatus.processing
              processingStartedAt := some now
              updatedAt := now } ∧
        ∀ m' ∈ (q.checkDelayedMessages now).messages,
          m'.status = MessageStatus.pending → MsgLe m0 m') ∧
    ((scenarioQ.dequeue 3).1.map (fun x => x.priority) = some 10 ∧
      (((scenarioQ.dequeue 3).2.dequeue 3).1.map (fun x => x.priority)) = some 5 ∧
      ((((scenarioQ.dequeue 3).2.dequeue 3).2.dequeue 3).1.map
        (fun x => x.priority)) = some 1) := by
  have hsorted : ((q.checkDelayedMessages now).messages).Pairwise MsgLe :=
    (queueInv_checkDelayed now (queueInv_of_reaches hq)).1
  refine ⟨?_, ?_, by decide⟩
  · intro p hp
    simp only [AdvancedQueue.peek] at hp
    exact find?_pending_first hsorted hp
  · intro m hm
    simp only [AdvancedQueue.dequeue] at hm
    cases hfind : List.find? isPending (q.checkDelayedMessages now).messages with
    | none => rw [hfind] at hm; simp at hm
    | some m0 =>
      rw [hfind] at hm
      simp only [Option.some.injEq] at hm
      obtain ⟨h1, h2, h3⟩ := find?_pending_first hsorted hfind
      exact ⟨m0, h1, h2, hm.symm, h3⟩

def scenarioDequeuedB : Message Nat :=
  { id := "b", data := 1, status := MessageStatus.processing, priority := 10
    createdAt := 1, updatedAt := 3, delayUntil := none, processingStartedAt := some 3
    processingAttempts := 0, failureReason := none }

/-- **C2** (witness): the theorem applied to the concrete 1/10/5 scenario at
its first dequeue. -/
theorem C2_witness :
    ∃ m0 ∈ (scenarioQ.checkDelayedMessages 3).messages,
      m0.status = MessageStatus.pending ∧
      scenarioDequeuedB = { m0 with
        status := MessageStatus.processing
        processingStartedAt := some 3
        updatedAt := 3 } ∧
      ∀ m' ∈ (scenarioQ.checkDelayedMessages 3).messages,
        m'.status = MessageStatus.pending → MsgLe m0 m' :=
  (C2_dequeue_order false scenarioQ scenarioQ_reachable 3).2.1
    scenarioDequeuedB (by decide)

/-! ### Claim C3 -/

theorem findMessageById_after_new {T : Type} {q : AdvancedQueue T} {X : String}
    {data : T} {p d : Option Int} {now : Nat} {genId : String} (hX : X ≠ "")
    (hnone : q.findMessageById X = none) :
    (q.enqueue data ⟨p, d, some X⟩ now genId).2.findMessageById X =
      some (q.enqueue data ⟨p, d, some X⟩ now genId).1 := by
  have heff : effectiveId ⟨p, d, some X⟩ genId = X := effectiveId_some hX genId
  have habs : ∀ l ⊆ q.getAllMessages, l.find? (idIs X) = none := by
    intro l hl
    refine List.find?_eq_none.mpr ?_
    intro x hx
    simp only [idIs, decide_eq_true_eq]
    exact findMessageById_eq_none.mp hnone x (hl hx)
  have hmsub : q.messages ⊆ q.getAllMessages := fun x hx => mem_all_of_mem_messages hx
  have hdsub : q.delayedMessages ⊆ q.getAllMessages :=
    fun x hx => mem_all_of_mem_delayed hx
  cases hd : delayPositive d with
  | true =>
    rw [enqueue_not_found_delayed (fun _ => by rw [heff]; exact hnone) hd]
    show AdvancedQueue.findMessageById _ X = _
    unfold AdvancedQueue.findMessageById
    rw [show ({ q with delayedMessages := sortMessages (q.delayedMessages ++
      [newMessageD data ⟨p, d, some X⟩ now genId]) } : AdvancedQueue T).messages
      = q.messages from rfl]
    rw [habs q.messages hmsub]
    have hfound : (sortMessages (q.delayedMessages ++
        [newMessageD data ⟨p, d, some X⟩ now genId])).find? (idIs X) =
        some (newMessageD data ⟨p, d, some X⟩ now genId) := by
      refine find?_eq_of_unique (mem_sortMessages.mpr
        (List.mem_append.mpr (Or.inr (by simp)))) ?_ ?_
      · simp [idIs, newMessageD_id, heff]
      · intro x hx hpx
        rcases List.mem_append.mp (mem_sortMessages.mp hx) with hx' | hx'
        · exfalso
          have := findMessageById_eq_none.mp hnone x (hdsub hx')
          simp only [idIs, decide_eq_true_eq] at hpx
          exact this hpx
        · simpa using hx'
    rw [hfound]
  | false =>
    rw [enqueue_not_found_ready (fun _ => by rw [heff]; exact hnone) hd]
    show AdvancedQueue.findMessageById _ X = _
    unfold AdvancedQueue.findMessageById
    have hfound : (sortMessages (q.messages ++
        [newMessage data ⟨p, d, some X⟩ now genId])).find? (idIs X) =
        some (newMessage data ⟨p, d, some X⟩ now genId) := by
      refine find?_eq_of_unique (mem_sortMessages.mpr
        (List.mem_append.mpr (Or.inr (by simp)))) ?_ ?_
      · simp [idIs, newMessage_id, heff]
      · intro x hx hpx
        rcases List.mem_append.mp (mem_sortMessages.mp hx) with hx' | hx'
        · exfalso
          have := findMessageById_eq_none.mp hnone x (hmsub hx')
          simp only [idIs, decide_eq_true_eq] at hpx
          exact this hpx
        · simpa using hx'
    rw [show ({ q with messages := sortMessages (q.messages ++
      [newMessage data ⟨p, d, some X⟩ now genId]) } : AdvancedQueue T).messages
      = sortMessages (q.messages ++ [newMessage data ⟨p, d, some X⟩ now genId])
      from rfl]
    rw [hfound]

/-- **C3** (amended): for every *nonempty* explicit id `X` — JavaScript
treats the empty string as absent — a second `enqueue` with the same id
returns the existing record unchanged and leaves the state (hence
`totalSize`) untouched, so two enqueues with the same explicit id grow
`totalSize` by exactly 1. -/
theorem C3_enqueue_idempotent {T : Type} (q : AdvancedQueue T) (X : String)
    (hX : X ≠ "") (data data' : T) (p p' d d' : Option Int) (now now' : Nat)
    (genId genId' : String) :
    (∀ m, q.findMessageById X = some m →
      q.enqueue data ⟨p, d, some X⟩ now genId = (m, q)) ∧
    (q.findMessageById X = none →
      (q.enqueue data ⟨p, d, some X⟩ now genId).2.totalSize = q.totalSize + 1 ∧
      (q.enqueue data ⟨p, d, some X⟩ now genId).2.enqueue data'
          ⟨p', d', some X⟩ now' genId' =
        ((q.enqueue data ⟨p, d, some X⟩ now genId).1,
          (q.enqueue data ⟨p, d, some X⟩ now genId).2)) := by
  have hs : strTruthy (some X) = true := strTruthy_some hX
  have heff : ∀ g, effectiveId ⟨p, d, some X⟩ g = X := effectiveId_some hX
  constructor
  · intro m hfind
    exact enqueue_existing hs (by rw [heff]; exact hfind)
  · intro hnone
    constructor
    · cases hd : delayPositive d with
      | true =>
        rw [enqueue_not_found_delayed (fun _ => by rw [heff]; exact hnone) hd]
        simp [AdvancedQueue.totalSize, sortMessages_length]
        omega
      | false =>
        rw [enqueue_not_found_ready (fun _ => by rw [heff]; exact hnone) hd]
        simp [AdvancedQueue.totalSize, sortMessages_length]
        omega
    · exact enqueue_existing (strTruthy_some hX)
        (by rw [effectiveId_some hX]; exact findMessageById_after_new hX hnone)

def c3Queue : AdvancedQueue Nat :=
  ((AdvancedQueue.init DEFAULT_QUEUE_OPTIONS).enqueue 0
    ⟨none, none, some ""⟩ 0 "g1").2

/-- **C3** (counterexample): with the explicit id `""` — which the code's
truthiness test treats as absent — two enqueues with the same explicit id
allocate two distinct messages: `totalSize` becomes 2, not 1. -/
theorem C3_counterexample :
    (c3Queue.enqueue 0 ⟨none, none, some ""⟩ 1 "g2").2.totalSize = 2 := by
  decide

/-- **C3** (witness): the amended theorem applied to the empty queue with
id `"x"`. -/
theorem C3_witness :
    ((AdvancedQueue.init DEFAULT_QUEUE_OPTIONS : AdvancedQueue Nat).enqueue 5
      ⟨none, none, some "x"⟩ 0 "g").2.totalSize =
      (AdvancedQueue.init DEFAULT_QUEUE_OPTIONS : AdvancedQueue Nat).totalSize + 1 :=
  ((C3_enqueue_idempotent (AdvancedQueue.init DEFAULT_QUEUE_OPTIONS) "x"
    (by decide) 5 6 none none none none 0 1 "g" "g2").2 (by decide)).1

/-! ### Claim C4 -/

/-- **C4** (amended): in every state reachable from the empty queue when
`fail` is only applied to messages residing in the ready collection — the
normal dequeue-then-fail flow — every id occurs in at most one collection
and at most once there.  (Applying `fail` to a message residing in the
delayed or dead-letter collection can duplicate its entry, see the
counterexample.) -/
theorem C4_unique_ids {T : Type} (q : AdvancedQueue T) (h : Reaches true q) :
    NodupIds q :=
  nodupIds_of_reaches h

def c4Queue : AdvancedQueue Nat :=
  ((AdvancedQueue.init DEFAULT_QUEUE_OPTIONS).enqueue 0
    ⟨none, some 100, some "a"⟩ 0 "g").2

/-- **C4** (counterexample): the state reached from the empty queue by
`enqueue` with a delay followed by `fail` on that (delayed) message contains
the id `"a"` twice in the delayed collection — `fail`'s retry branch only
splices the message out of the ready collection before re-inserting it into
the delayed one. -/
theorem C4_counterexample :
    Reaches false ((c4Queue.fail "a" (some "boom") 0).2) ∧
    idsOf ((c4Queue.fail "a" (some "boom") 0).2).delayedMessages = ["a", "a"] ∧
    ¬ NodupIds ((c4Queue.fail "a" (some "boom") 0).2) := by
  refine ⟨?_, by decide, by unfold NodupIds; decide⟩
  exact Reaches.fail "a" (some "boom") 0
    (Reaches.enqueue 0 ⟨none, some 100, some "a"⟩ 0 "g"
      (Reaches.init DEFAULT_QUEUE_OPTIONS)
      (fun hh => absurd hh (by decide)))
    (fun hh => absurd hh (by decide))

def c4SafeQueue : AdvancedQueue Nat :=
  (((((AdvancedQueue.init DEFAULT_QUEUE_OPTIONS).enqueue 7
    ⟨none, none, some "p"⟩ 0 "g").2.dequeue 1).2.fail "p" (some "e") 2).2)

/-- **C4** (witness): the amended theorem applied to a concrete
enqueue / dequeue / fail history in which `fail` targets a ready-collection
message. -/
theorem C4_witness : NodupIds c4SafeQueue :=
  C4_unique_ids c4SafeQueue
    (Reaches.fail "p" (some "e") 2
      (Reaches.dequeue 1
        (Reaches.enqueue 7 ⟨none, none, some "p"⟩ 0 "g"
          (Reaches.init DEFAULT_QUEUE_OPTIONS)
          (fun hh => absurd hh (by decide))))
      (fun _ => by decide))

/-! ### Claim C5 -/

/-- **C5** (amended): a newly created message has status Delayed exactly when
the supplied delay is a *nonzero* number (JavaScript truthiness) — including
negative delays — and status Pending otherwise; it is inserted into the
delayed collection exactly when the delay is strictly positive, and into the
ready collection otherwise.  A negative delay therefore produces a
Delayed-status message parked in the ready collection. -/
theorem C5_enqueue_status {T : Type} (q : AdvancedQueue T) (data : T)
    (opts : EnqueueOptions) (now : Nat) (genId : String)
    (hnone : strTruthy opts.id = true →
      q.findMessageById (effectiveId opts genId) = none) :
    ((q.enqueue data opts now genId).1.status = MessageStatus.delayed ↔
      intTruthy opts.delay = true) ∧
    ((q.enqueue data opts now genId).1.status = MessageStatus.pending ↔
      intTruthy opts.delay = false) ∧
    (delayPositive opts.delay = true →
      (q.enqueue data opts now genId).1 ∈
        (q.enqueue data opts now genId).2.delayedMessages ∧
      (q.enqueue data opts now genId).1.delayUntil =
        some (now + (opts.delay.getD 0).toNat)) ∧
    (delayPositive opts.delay = false →
      (q.enqueue data opts now genId).1 ∈ (q.enqueue data opts now genId).2.messages) := by
  cases hd : delayPositive opts.delay with
  | true =>
    rw [enqueue_not_found_delayed hnone hd]
    have hstat : (newMessageD data opts now genId).status =
        (if intTruthy opts.delay then MessageStatus.delayed else MessageStatus.pending) :=
      rfl
    refine ⟨?_, ?_, ?_, ?_⟩
    · rw [hstat]
      cases hi : intTruthy opts.delay <;> simp
    · rw [hstat]
      cases hi : intTruthy opts.delay <;> simp
    · intro _
      exact ⟨mem_sortMessages.mpr (List.mem_append.mpr (Or.inr (by simp))), rfl⟩
    · intro hcon
      exact absurd hcon (by simp)
  | false =>
    rw [enqueue_not_found_ready hnone hd]
    have hstat : (newMessage data opts now genId).status =
        (if intTruthy opts.delay then MessageStatus.delayed else MessageStatus.pending) :=
      rfl
    refine ⟨?_, ?_, ?_, ?_⟩
    · rw [hstat]
      cases hi : intTruthy opts.delay <;> simp
    · rw [hstat]
      cases hi : intTruthy opts.delay <;> simp
    · intro hcon
      exact absurd hcon (by simp)
    · intro _
      exact mem_sortMessages.mpr (List.mem_append.mpr (Or.inr (by simp)))

/-- **C5** (counterexample): `enqueue` with `delay = -1` creates a message
whose status is Delayed — the claim says Pending for a negative delay — and
inserts it into the *ready* collection, so status Delayed does not coincide
with residence in the delayed collection either. -/
theorem C5_counterexample :
    ((AdvancedQueue.init DEFAULT_QUEUE_OPTIONS : AdvancedQueue Nat).enqueue 0
      ⟨none, some (-1), some "n"⟩ 0 "g").1.status = MessageStatus.delayed ∧
    ((AdvancedQueue.init DEFAULT_QUEUE_OPTIONS : AdvancedQueue Nat).enqueue 0
      ⟨none, some (-1), some "n"⟩ 0 "g").1 ∈
      ((AdvancedQueue.init DEFAULT_QUEUE_OPTIONS : AdvancedQueue Nat).enqueue 0
        ⟨none, some (-1), some "n"⟩ 0 "g").2.messages ∧
    ((AdvancedQueue.init DEFAULT_QUEUE_OPTIONS : AdvancedQueue Nat).enqueue 0
      ⟨none, some (-1), some "n"⟩ 0 "g").2.delayedMessages = [] := by
  decide

/-- **C5** (witness): the amended theorem applied to an enqueue with
`delay = 50` on the empty queue. -/
theorem C5_witness :
    ((AdvancedQueue.init DEFAULT_QUEUE_OPTIONS : AdvancedQueue Nat).enqueue 3
      ⟨none, some 50, none⟩ 0 "w").1 ∈
      ((AdvancedQueue.init DEFAULT_QUEUE_OPTIONS : AdvancedQueue Nat).enqueue 3
        ⟨none, some 50, none⟩ 0 "w").2.delayedMessages :=
  (((C5_enqueue_status (AdvancedQueue.init DEFAULT_QUEUE_OPTIONS) 3
    ⟨none, some 50, none⟩ 0 "w" (fun h => absurd h (by decide))).2.2.1)
    (by decide)).1

/-! ### Claim C6 -/

/-- The delayed collection ordered by `delayUntil` ascending — the ordering
the claim asserts. -/
def delayedAscending {T : Type} (q : AdvancedQueue T) : Prop :=
  q.delayedMessages.Pairwise (fun a b => a.delayUntil.getD 0 ≤ b.delayUntil.getD 0)

/-- **C6** (amended): after an `enqueue` with a positive delay, and after a
`fail` below `maxRetries`, the delayed collection is sorted by the *same
comparator as the ready collection* — priority descending, then `createdAt`
ascending — not by `delayUntil`. -/
theorem C6_delayed_sorted {T : Type} (q : AdvancedQueue T) (data : T)
    (opts : EnqueueOptions) (now : Nat) (genId : String) :
    (delayPositive opts.delay = true →
      (strTruthy opts.id = true →
        q.findMessageById (effectiveId opts genId) = none) →
      ((q.enqueue data opts now genId).2.delayedMessages).Pairwise MsgLe) ∧
    (∀ i m reason, q.findMessageById i = some m →
      m.processingAttempts + 1 < q.options.maxRetries →
      ((q.fail i reason now).2.delayedMessages).Pairwise MsgLe) := by
  constructor
  · intro hd hnone
    rw [enqueue_not_found_delayed hnone hd]
    exact sortMessages_sorted _
  · intro i m reason hfind hlt
    rw [fail_eq_retry hfind hlt]
    by_cases hac : q.options.autoCheckDelayed = true
    · simp only [hac, if_true]
      rw [checkDelayed_delayed_eq, failQ3_delayed]
      exact (sortMessages_sorted _).filter _
    · rw [if_neg hac, failQ3_delayed]
      exact sortMessages_sorted _

def c6Queue : AdvancedQueue Nat :=
  (((AdvancedQueue.init DEFAULT_QUEUE_OPTIONS).enqueue 0
    ⟨some 5, some 1000, some "x"⟩ 0 "g").2.enqueue 1
    ⟨some 0, some 10, some "y"⟩ 1 "g2").2

/-- **C6** (counterexample): two delayed enqueues — priority 5 with a long
delay, then priority 0 with a short delay — leave the delayed collection
with `delayUntil` values `[1000, 11]`, which is not ascending: the code
sorts the delayed collection by priority/creation time, not by
`delayUntil`. -/
theorem C6_counterexample :
    c6Queue.delayedMessages.map (fun m => m.delayUntil) = [some 1000, some 11] ∧
    ¬ delayedAscending c6Queue := by
  refine ⟨by decide, ?_⟩
  unfold delayedAscending
  decide

/-- **C6** (witness): the amended theorem applied to a delayed enqueue on a
concrete queue. -/
theorem C6_witness :
    ((c6Queue.enqueue 2 ⟨some 3, some 500, some "z"⟩ 2 "g3").2.delayedMessages).Pairwise
      MsgLe :=
  (C6_delayed_sorted c6Queue 2 ⟨some 3, some 500, some "z"⟩ 2 "g3").1
    (by decide) (fun _ => by decide)

/-! ### Claim C7 -/

/-- **C7**: for an id found in the dead-letter collection, `retryDeadLetter`
returns true, splices that entry out of the dead-letter collection (so under
unique ids the id no longer occurs there), and inserts the reset record —
attempts 0, `failureReason`/`delayUntil`/`processingStartedAt` cleared,
status Pending — into the ready collection; for an id not found there (even
if present in another collection) it returns false and changes nothing. -/
theorem C7_retryDeadLetter {T : Type} (q : AdvancedQueue T) (i : String) (now : Nat) :
    (∀ m, q.deadLetterMessages.find? (idIs i) = some m →
      (q.retryDeadLetter i now).1 = true ∧
      resetDeadLetter m now ∈ (q.retryDeadLetter i now).2.messages ∧
      idsOf (q.retryDeadLetter i now).2.deadLetterMessages =
        (idsOf q.deadLetterMessages).eraseP (fun s => decide (s = i)) ∧
      (NodupIds q → i ∉ idsOf (q.retryDeadLetter i now).2.deadLetterMessages)) ∧
    (q.deadLetterMessages.find? (idIs i) = none →
      q.retryDeadLetter i now = (false, q)) := by
  constructor
  · intro m hfind
    have hmid : m.id = i := by simpa [idIs] using List.find?_some hfind
    have hrid : (resetDeadLetter m now).id = i := by rw [resetDeadLetter_id]; exact hmid
    rw [retryDeadLetter_eq_found hfind]
    refine ⟨rfl, ?_, ?_, ?_⟩
    · rw [retryQ_messages]
      exact mem_sortMessages.mpr (List.mem_append.mpr (Or.inr (by simp)))
    · rw [retryQ_dead, setMessage_dead, idsOf_setFn _ _ _ hrid]
      exact idsOf_eraseP _ _
    · intro hnd
      rw [retryQ_dead, setMessage_dead, idsOf_setFn _ _ _ hrid, idsOf_eraseP]
      unfold NodupIds at hnd
      rw [ids_all_eq] at hnd
      exact not_mem_eraseP_self (nodup_triple hnd).2.2.1 i
  · intro hnone
    exact retryDeadLetter_eq_none hnone

def c7Queue : AdvancedQueue Nat :=
  (((((AdvancedQueue.init DEFAULT_QUEUE_OPTIONS).enqueue 7
    ⟨none, none, some "p"⟩ 0 "g").2.fail "p" (some "e") 1).2.fail "p"
    (some "e") 2).2.fail "p" (some "e") 3).2

def c7Msg : Message Nat :=
  { id := "p", data := 7, status := MessageStatus.dead_letter, priority := 0
    createdAt := 0, updatedAt := 3, delayUntil := some 1002
    processingStartedAt := none, processingAttempts := 3, failureReason := some "e" }

/-- **C7** (witness): the theorem applied to a queue whose message was
failed three times into the dead-letter collection. -/
theorem C7_witness : (c7Queue.retryDeadLetter "p" 4).1 = true :=
  ((C7_retryDeadLetter c7Queue "p" 4).1 c7Msg (by decide)).1

/-! ### Claim C8 -/

/-- **C8** (amended): the topic queue posts to the channel exactly when the
channel exists and the supplied delay is falsy — *regardless of whether a
new message was created*: an enqueue whose explicit id already exists
returns the existing record, changes no state, and still posts that record
again (a re-broadcast).  Delay-truthy enqueues post nothing. -/
theorem C8_broadcast {T : Type} (tq : AdvancedTopicQueue T) (data : T)
    (opts : EnqueueOptions) (now : Nat) (genId : String) :
    (intTruthy opts.delay = true → (tq.enqueue data opts now genId).2.2 = []) ∧
    (tq.hasChannel = false → (tq.enqueue data opts now genId).2.2 = []) ∧
    (tq.hasChannel = true → intTruthy opts.delay = false →
      (tq.enqueue data opts now genId).2.2 = [(tq.enqueue data opts now genId).1]) ∧
    (∀ m, tq.hasChannel = true → intTruthy opts.delay = false →
      strTruthy opts.id = true →
      tq.base.findMessageById (effectiveId opts genId) = some m →
      (tq.enqueue data opts now genId).2.2 = [m] ∧
      (tq.enqueue data opts now genId).2.1 = tq) := by
  refine ⟨?_, ?_, ?_, ?_⟩
  · intro hd
    simp [AdvancedTopicQueue.enqueue, hd]
  · intro hc
    simp [AdvancedTopicQueue.enqueue, hc]
  · intro hc hd
    simp [AdvancedTopicQueue.enqueue, hc, hd]
  · intro m hc hd hs hfind
    have h : tq.base.enqueue data opts now genId = (m, tq.base) :=
      enqueue_existing hs hfind
    constructor
    · simp [AdvancedTopicQueue.enqueue, h, hc, hd]
    · simp [AdvancedTopicQueue.enqueue, h]

def c8Tq : AdvancedTopicQueue Nat :=
  { base := AdvancedQueue.init DEFAULT_QUEUE_OPTIONS, hasChannel := true }

def c8Tq1 : AdvancedTopicQueue Nat :=
  (c8Tq.enqueue 7 ⟨none, none, some "x"⟩ 0 "g").2.1

/-- **C8** (counterexample): a second non-delayed enqueue with the same
explicit id returns the existing message *and posts it to the channel
again* — the claim says an enqueue that returns an existing message posts
nothing. -/
theorem C8_counterexample :
    (c8Tq1.enqueue 8 ⟨none, none, some "x"⟩ 1 "g2").1 =
      (c8Tq.enqueue 7 ⟨none, none, some "x"⟩ 0 "g").1 ∧
    (c8Tq1.enqueue 8 ⟨none, none, some "x"⟩ 1 "g2").2.2 =
      [(c8Tq.enqueue 7 ⟨none, none, some "x"⟩ 0 "g").1] := by
  decide

/-- **C8** (witness): a fresh non-delayed enqueue on a channel-bearing topic
queue posts exactly once. -/
theorem C8_witness :
    (c8Tq.enqueue 7 ⟨none, none, some "x"⟩ 0 "g").2.2 =
      [(c8Tq.enqueue 7 ⟨none, none, some "x"⟩ 0 "g").1] :=
  (C8_broadcast c8Tq 7 ⟨none, none, some "x"⟩ 0 "g").2.2.1 (by decide) (by decide)

/-! ### Claim C9 -/

/-- **C9**: `cancelDelayed` returns true and splices the entry out of the
delayed collection exactly when the id occurs there; otherwise it returns
false and the whole state is unchanged; the ready and dead-letter
collections are unchanged by every call. -/
theorem C9_cancelDelayed {T : Type} (q : AdvancedQueue T) (i : String) :
    (q.cancelDelayed i).2.messages = q.messages ∧
    (q.cancelDelayed i).2.deadLetterMessages = q.deadLetterMessages ∧
    (q.delayedMessages.any (idIs i) = true →
      (q.cancelDelayed i).1 = true ∧
      (q.cancelDelayed i).2.delayedMessages = q.delayedMessages.eraseP (idIs i)) ∧
    (q.delayedMessages.any (idIs i) = false → q.cancelDelayed i = (false, q)) := by
  unfold AdvancedQueue.cancelDelayed
  by_cases h : q.delayedMessages.any (idIs i) = true
  · rw [if_pos h]
    exact ⟨rfl, rfl, fun _ => ⟨rfl, rfl⟩, fun hc => absurd hc (by simp [h])⟩
  · rw [if_neg h]
    exact ⟨rfl, rfl, fun hc => absurd hc h, fun _ => rfl⟩

def c9Queue : AdvancedQueue Nat :=
  ((AdvancedQueue.init DEFAULT_QUEUE_OPTIONS).enqueue 7
    ⟨none, some 100, some "d"⟩ 0 "g").2

/-- **C9** (witness): cancelling a present delayed message succeeds. -/
theorem C9_witness : (c9Queue.cancelDelayed "d").1 = true :=
  ((C9_cancelDelayed c9Queue "d").2.2.1 (by decide)).1
